import Mathlib

/-
Verification of the aggregation, filtering, normalization and territorial
join pipeline of the vpo_tableros dashboards.  The tabular data is modelled
shallowly: Python strings are lists of Unicode codepoints, numeric cells are
rationals, dataframes are lists of records, and pandas float division is an
extended value type tracking infinities and the not-a-number value.
-/

set_option maxRecDepth 8000

namespace VpoTableros

/-- Python strings modelled as lists of Unicode codepoints. -/
abbrev PyStr := List Nat

/-- Codepoint list of a Lean string literal, used to write concrete keys. -/
def pyOfString (s : String) : PyStr := s.data.map Char.toNat

/-- Whitespace codepoints removed by the Python strip method (ASCII range). -/
def isWS (n : Nat) : Bool := n == 32 || n == 9 || n == 10 || n == 13 || n == 11 || n == 12

/-- Uppercasing of one codepoint, as the Python upper method acts on ASCII letters. -/
def upNat (n : Nat) : Nat := if 97 ≤ n ∧ n ≤ 122 then n - 32 else n

/-- Model of the Python upper method. -/
def pyUpper (s : PyStr) : PyStr := s.map upNat

/-- Replace the space codepoint by the underscore codepoint on one codepoint. -/
def replSpaceNat (n : Nat) : Nat := if n = 32 then 95 else n

/-- Model of replacing spaces by underscores in column names. -/
def pyReplaceSpace (s : PyStr) : PyStr := s.map replSpaceNat

/-- Remove leading whitespace. -/
def pyLstrip (s : PyStr) : PyStr := s.dropWhile isWS

/-- Remove trailing whitespace. -/
def pyRstrip (s : PyStr) : PyStr := (s.reverse.dropWhile isWS).reverse

/-- Model of the Python strip method. -/
def pyStrip (s : PyStr) : PyStr := pyRstrip (pyLstrip s)

/-- Model of the Python zfill method: pad with zero digits on the left up to the
requested width, keeping a leading sign in front of the padding. -/
def pyZfill (w : Nat) (s : PyStr) : PyStr :=
  if w ≤ s.length then s
  else
    match s with
    | c :: rest =>
        if c = 43 ∨ c = 45 then c :: (List.replicate (w - s.length) 48 ++ rest)
        else List.replicate (w - s.length) 48 ++ s
    | [] => List.replicate w 48

/-- Fuel driven accumulator loop producing decimal digit codepoints. -/
def natDigitsCore : Nat → Nat → List Nat → List Nat
  | 0, _, acc => acc
  | fuel + 1, n, acc =>
      if n < 10 then (48 + n) :: acc
      else natDigitsCore fuel (n / 10) ((48 + n % 10) :: acc)

/-- Decimal digit codepoints of a natural number, most significant digit first. -/
def natDigits (n : Nat) : List Nat := natDigitsCore (n + 1) n []

/-- Cell values of the tabular data: strings or integers. -/
inductive Val where
  | s (v : PyStr)
  | n (v : Int)
deriving DecidableEq

/-- Conversion of a cell to a Python string, modelling astype str and the str builtin. -/
def pyStrOfVal : Val → PyStr
  | .s v => v
  | .n v => if v < 0 then 45 :: natDigits v.natAbs else natDigits v.natAbs

/-- The sentinel for missing categorical data. -/
def naStr : PyStr := pyOfString "N/A"

/-- The sentinel meaning no filter applied. -/
def todosStr : PyStr := pyOfString "Todos"

/-- Key of the synthetic totals row. -/
def totalStr : PyStr := pyOfString "TOTAL"

/-- Legacy name of the percentage executed column. -/
def pctEjCol : PyStr := pyOfString "%_EJECUCION"

/-- Canonical name of the percentage executed column. -/
def porcEjCol : PyStr := pyOfString "PORCENTAJE_EJECUCION"

/-- Month order lookup of ingreso_st, keyed by three letter month names. -/
def meses_orden (s : PyStr) : Option Nat :=
  if s = pyOfString "ENE" then some 1 else if s = pyOfString "FEB" then some 2
  else if s = pyOfString "MAR" then some 3 else if s = pyOfString "ABR" then some 4
  else if s = pyOfString "MAY" then some 5 else if s = pyOfString "JUN" then some 6
  else if s = pyOfString "JUL" then some 7 else if s = pyOfString "AGO" then some 8
  else if s = pyOfString "SEP" then some 9 else if s = pyOfString "OCT" then some 10
  else if s = pyOfString "NOV" then some 11 else if s = pyOfString "DIC" then some 12
  else none

/-- Month order lookup of poblacion_st, keyed by full month names. -/
def MONTH_ORDER (s : PyStr) : Option Nat :=
  if s = pyOfString "ENERO" then some 1 else if s = pyOfString "FEBRERO" then some 2
  else if s = pyOfString "MARZO" then some 3 else if s = pyOfString "ABRIL" then some 4
  else if s = pyOfString "MAYO" then some 5 else if s = pyOfString "JUNIO" then some 6
  else if s = pyOfString "JULIO" then some 7 else if s = pyOfString "AGOSTO" then some 8
  else if s = pyOfString "SEPTIEMBRE" then some 9 else if s = pyOfString "OCTUBRE" then some 10
  else if s = pyOfString "NOVIEMBRE" then some 11 else if s = pyOfString "DICIEMBRE" then some 12
  else none

/-- Lexicographic comparison of codepoint strings, as pandas sorts string keys. -/
def lexLeN : List Nat → List Nat → Bool
  | [], _ => true
  | _ :: _, [] => false
  | a :: as, b :: bs => if a < b then true else if b < a then false else lexLeN as bs

/-- Insertion into a sorted list, the step of the sorting model. -/
def insertByLe {α : Type} (le : α → α → Bool) (x : α) : List α → List α
  | [] => [x]
  | y :: ys => if le x y then x :: y :: ys else y :: insertByLe le x ys

/-- Insertion sort, modelling the sorted output of a pandas groupby or sort. -/
def sortByLe {α : Type} (le : α → α → Bool) : List α → List α
  | [] => []
  | x :: xs => insertByLe le x (sortByLe le xs)

/-- Distinct keys in first occurrence order. -/
def dedupKeys : List PyStr → List PyStr
  | [] => []
  | k :: ks => k :: (dedupKeys ks).filter (fun x => decide (x ≠ k))

/-- Deduplication of rows by key, keeping the first occurrence, as drop_duplicates. -/
def dedupByKey {α : Type} (key : α → PyStr) : List α → List α
  | [] => []
  | r :: rs => r :: (dedupByKey key rs).filter (fun x => decide (key x ≠ key r))

/-- Boolean check that consecutive elements are ordered. -/
def pairwiseLe {α : Type} (le : α → α → Bool) : List α → Bool
  | [] => true
  | [_] => true
  | a :: b :: l => le a b && pairwiseLe le (b :: l)

/-- Order on optional month numbers: missing values sort last, as pandas does with NaN. -/
def optNatLe : Option Nat → Option Nat → Bool
  | some a, some b => decide (a ≤ b)
  | some _, none => true
  | none, some _ => false
  | none, none => true

/-- Extended result of a pointwise float division, tracking infinities and NaN. -/
inductive PFloat where
  | val (q : ℚ)
  | pinf
  | ninf
  | nan
deriving DecidableEq

/-- Model of float division as pandas and numpy perform it elementwise. -/
def pyDiv (num den : ℚ) : PFloat :=
  if den = 0 then (if 0 < num then .pinf else if num < 0 then .ninf else .nan)
  else .val (num / den)

/-- Model of the pandas replace of both infinities followed by fillna with zero. -/
def replaceInfNan0 : PFloat → ℚ
  | .val q => q
  | _ => 0

/-- Multiplication of an extended value by one hundred. -/
def pfMul100 : PFloat → PFloat
  | .val q => .val (q * 100)
  | x => x

/-- Sum of a numeric column over a list of rows. -/
def sumOf {α : Type} (f : α → ℚ) (l : List α) : ℚ := (l.map f).sum

/-- Dataframe with dynamic column names; the cells of each row are positionally
aligned with the column name list. -/
structure DF where
  cols : List PyStr
  rows : List (List Val)
deriving DecidableEq

/-- Normalization of one column name as in normalize_columns: strip, upper,
replace spaces by underscores. -/
def normName (s : PyStr) : PyStr := pyReplaceSpace (pyUpper (pyStrip s))

/-- Model of normalize_columns in ingreso_st: every column name is stripped,
uppercased and space separated words are joined by underscores, then the legacy
percentage executed column is renamed to its canonical name.  Cell data is not
touched. -/
def normalize_columns (df : DF) : DF :=
  let cols1 := df.cols.map normName
  let cols2 :=
    if pctEjCol ∈ cols1 then cols1.map (fun c => if c = pctEjCol then porcEjCol else c)
    else cols1
  { cols := cols2, rows := df.rows }

/-- Normalization that aplicar_filtro_select applies to the filtered column and to
the selected value: astype str, upper, strip. -/
def filtroNorm (v : Val) : PyStr := pyStrip (pyUpper (pyStrOfVal v))

/-- Cell of a row at the first position carrying the given column name. -/
def cellAt (cols : List PyStr) (row : List Val) (col : PyStr) : Option Val :=
  ((cols.zip row).find? (fun p => decide (p.1 = col))).map (fun p => p.2)

/-- Row after the loc assignment of aplicar_filtro_select: the cells of the
selected column are replaced by their normalized string form. -/
def normRow (cols : List PyStr) (col : PyStr) (row : List Val) : List Val :=
  (cols.zip row).map (fun p => if p.1 = col then Val.s (filtroNorm p.2) else p.2)

/-- Model of aplicar_filtro_select in ingreso_st.  The first component of the
result is the state of the argument dataframe after the call, because the
function assigns the normalized column into the frame it was passed with loc;
the second component is the returned filtered dataframe. -/
def aplicar_filtro_select (df : DF) (col : PyStr) (valor : Val) : DF × DF :=
  if col ∉ df.cols ∨ valor = Val.s todosStr then (df, df)
  else
    let rows2 := df.rows.map (normRow df.cols col)
    let valorStr := filtroNorm valor
    ({ cols := df.cols, rows := rows2 },
     { cols := df.cols,
       rows := rows2.filter (fun row => decide (cellAt df.cols row col = some (Val.s valorStr))) })

/-- Row of the componentes sheet as consumed by create_componente_table. -/
structure CompRow where
  concepto : PyStr
  presupuesto : ℚ
  ejecutado : ℚ
deriving DecidableEq

/-- Output row of the componente aggregation. -/
structure CompOut where
  concepto : PyStr
  presupuesto : ℚ
  ejecutado : ℚ
  diferencia : ℚ
  pct_ejecucion : ℚ
deriving DecidableEq

/-- Group row of create_componente_table for one CONCEPTO key: sums, difference,
and the executed percentage where division results are cleaned of infinities and
NaN before the scaling by one hundred. -/
def compGroupRow (df : List CompRow) (k : PyStr) : CompOut :=
  let rows := df.filter (fun r => decide (r.concepto = k))
  let p := sumOf (fun r => r.presupuesto) rows
  let e := sumOf (fun r => r.ejecutado) rows
  { concepto := k, presupuesto := p, ejecutado := e,
    diferencia := e - p,
    pct_ejecucion := replaceInfNan0 (pyDiv e p) * 100 }

/-- Grouped rows of create_componente_table: one output row per distinct CONCEPTO
key, keys in the sorted order of the pandas groupby, sentinel keyed rows kept as
an ordinary group. -/
def compGroups (df : List CompRow) : List CompOut :=
  (sortByLe lexLeN (dedupKeys (df.map (fun r => r.concepto)))).map (compGroupRow df)

/-- The TOTAL row of create_componente_table, recomputed from the sums of the
group rows, with the executed percentage guarded by the explicit zero check of
the source. -/
def compTotalRow (df_group : List CompOut) : CompOut :=
  { concepto := totalStr,
    presupuesto := sumOf (fun g => g.presupuesto) df_group,
    ejecutado := sumOf (fun g => g.ejecutado) df_group,
    diferencia := sumOf (fun g => g.ejecutado) df_group - sumOf (fun g => g.presupuesto) df_group,
    pct_ejecucion :=
      if sumOf (fun g => g.presupuesto) df_group ≠ 0 then
        sumOf (fun g => g.ejecutado) df_group / sumOf (fun g => g.presupuesto) df_group * 100
      else 0 }

/-- Model of create_componente_table in ingreso_st.  Returns none when there is
no CONCEPTO data or every key is the sentinel; otherwise groups by CONCEPTO,
appends the TOTAL row recomputed from the group sums, and returns the display
and export tables.  The display table carries the same rows in the same order as
the export table; its number formatting is not modelled. -/
def create_componente_table (df : List CompRow) : Option (List CompOut × List CompOut) :=
  if df.isEmpty || df.all (fun r => decide (r.concepto = naStr)) then none
  else
    some (compGroups df ++ [compTotalRow (compGroups df)],
          compGroups df ++ [compTotalRow (compGroups df)])

/-- Row of the ingreso sheet as consumed by create_kpi_table, projected onto the
grouping column value and the two amount columns. -/
structure KpiRow where
  key : PyStr
  total_presupuesto : ℚ
  total_ejecutado : ℚ
deriving DecidableEq

/-- Output row of the kpi aggregation after renaming the amount columns. -/
structure KpiOut where
  key : PyStr
  presupuesto : ℚ
  ejecutado : ℚ
  diferencia : ℚ
  pct_ejecucion : ℚ
deriving DecidableEq

/-- Group row of create_kpi_table for one key. -/
def kpiGroupRow (df : List KpiRow) (k : PyStr) : KpiOut :=
  let rows := df.filter (fun r => decide (r.key = k))
  let p := sumOf (fun r => r.total_presupuesto) rows
  let e := sumOf (fun r => r.total_ejecutado) rows
  { key := k, presupuesto := p, ejecutado := e,
    diferencia := e - p,
    pct_ejecucion := replaceInfNan0 (pyDiv e p) * 100 }

/-- Month reordering applied by create_kpi_table to the display table: map each
key through the month lookup after uppercasing, drop rows whose month is not
recognized, and sort by the looked up month number. -/
def kpiMonthDisplay (df_group : List KpiOut) : List KpiOut :=
  ((sortByLe (fun a b => optNatLe a.2 b.2)
      ((df_group.map (fun g => (g, meses_orden (pyUpper g.key)))).filter
        (fun p => p.2.isSome))).map (fun p => p.1))

/-- Grouped rows of create_kpi_table over the sentinel free rows, keys in the
sorted order of the pandas groupby. -/
def kpiGroups (dfF : List KpiRow) : List KpiOut :=
  (sortByLe lexLeN (dedupKeys (dfF.map (fun r => r.key)))).map (kpiGroupRow dfF)

/-- Model of create_kpi_table in ingreso_st.  The boolean parameter records
whether the grouping column is MES and the FECHA column is present, the only
case in which the display table is chronologically reordered.  Sentinel keyed
rows are discarded before grouping.  The export table keeps the groupby order of
keys; only the display table is reordered. -/
def create_kpi_table (mesWithFecha : Bool) (df : List KpiRow) : Option (List KpiOut × List KpiOut) :=
  if df.isEmpty || df.all (fun r => decide (r.key = naStr)) then none
  else
    if (kpiGroups (df.filter (fun r => decide (r.key ≠ naStr)))).isEmpty then none
    else
      some ((if mesWithFecha then
               kpiMonthDisplay (kpiGroups (df.filter (fun r => decide (r.key ≠ naStr))))
             else kpiGroups (df.filter (fun r => decide (r.key ≠ naStr)))),
            kpiGroups (df.filter (fun r => decide (r.key ≠ naStr))))

/-- View of an abstract keyed row list as input rows of create_kpi_table. -/
def toKpiRows (l : List (PyStr × ℚ × ℚ)) : List KpiRow :=
  l.map (fun x => { key := x.1, total_presupuesto := x.2.1, total_ejecutado := x.2.2 })

/-- View of the same abstract keyed row list as input rows of
create_componente_table. -/
def toCompRows (l : List (PyStr × ℚ × ℚ)) : List CompRow :=
  l.map (fun x => { concepto := x.1, presupuesto := x.2.1, ejecutado := x.2.2 })

/-- Row of the merged poblacion data as consumed by the summary blocks of
poblacion_st, projected onto the three grouping columns and the three summed
columns. -/
structure PobRow where
  regional : PyStr
  mes : PyStr
  regimen : PyStr
  presupuesto : ℚ
  poblacion_bdua : ℚ
  poblacion_pais : ℚ
deriving DecidableEq

/-- Output row of a poblacion_st summary block. -/
structure PobOut where
  key : PyStr
  presupuesto : ℚ
  poblacion_bdua : ℚ
  poblacion_pais : ℚ
  pct_ejecucion : ℚ
  pct_participacion_pais : ℚ
deriving DecidableEq

/-- One output row of a poblacion_st summary block: grouped sums plus the
executed percentage computed with np.where guarding a zero denominator, and the
country participation computed with np.divide scaled by one hundred and then
cleaned of infinities and NaN. -/
def pobGroupRow (key : PobRow → PyStr) (df : List PobRow) (k : PyStr) : PobOut :=
  let rows := df.filter (fun r => decide (key r = k))
  let p := sumOf (fun r => r.presupuesto) rows
  let b := sumOf (fun r => r.poblacion_bdua) rows
  let pais := sumOf (fun r => r.poblacion_pais) rows
  { key := k, presupuesto := p, poblacion_bdua := b, poblacion_pais := pais,
    pct_ejecucion := if p ≠ 0 then b / p * 100 else 0,
    pct_participacion_pais := replaceInfNan0 (pfMul100 (pyDiv b pais)) }

/-- One grouped summary block of poblacion_st, keys in the sorted order of the
pandas groupby. -/
def pobSummaryBy (key : PobRow → PyStr) (df : List PobRow) : List PobOut :=
  (sortByLe lexLeN (dedupKeys (df.map key))).map (pobGroupRow key df)

/-- Regional summary table of poblacion_st, sorted by participation descending. -/
def df_regional_viz (df : List PobRow) : List PobOut :=
  sortByLe (fun a b => decide (b.pct_participacion_pais ≤ a.pct_participacion_pais))
    (pobSummaryBy (fun r => r.regional) df)

/-- Month summary table of poblacion_st: sorted by the calendar month lookup with
unrecognized months placed last; no row is dropped. -/
def df_mes_viz (df : List PobRow) : List PobOut :=
  sortByLe (fun a b => optNatLe (MONTH_ORDER a.key) (MONTH_ORDER b.key))
    (pobSummaryBy (fun r => r.mes) df)

/-- Regimen summary table of poblacion_st, sorted by key ascending. -/
def df_regimen_table_viz (df : List PobRow) : List PobOut :=
  sortByLe (fun a b => lexLeN a.key b.key) (pobSummaryBy (fun r => r.regimen) df)

/-- Row of the geography reference table: the administrative code and the selected
attribute columns, where a missing attribute cell is none. -/
structure GeoRow where
  dane : Val
  attrs : List (Option Val)
deriving DecidableEq

/-- Row of a primary dataset entering a territorial join: the administrative code
and one representative amount column. -/
structure PrimRow where
  dane : Val
  monto : ℚ
deriving DecidableEq

/-- Row resulting from the ingreso territorial join, geography attributes filled. -/
structure MergedRow where
  dane : Val
  monto : ℚ
  attrs : List Val
deriving DecidableEq

/-- Row resulting from the poblacion territorial join, attributes kept as loaded. -/
structure MergedRowPob where
  dane : Val
  monto : ℚ
  attrs : List (Option Val)
deriving DecidableEq

/-- Sentinel cell for missing categorical data. -/
def naVal : Val := .s naStr

/-- Join key of mostrar_ingreso: the code as a string, zero padded to width five. -/
def ingresoKey (v : Val) : PyStr := pyZfill 5 (pyStrOfVal v)

/-- One output row of the ingreso territorial join: the first matching reference
row contributes its attributes with missing cells filled by the sentinel, and an
unmatched primary row receives the sentinel in every attribute column. -/
def mergeOne (m : Nat) (geoU : List GeoRow) (p : PrimRow) : MergedRow :=
  match geoU.find? (fun g => decide (ingresoKey g.dane = ingresoKey p.dane)) with
  | some g => { dane := p.dane, monto := p.monto, attrs := g.attrs.map (fun a => a.getD naVal) }
  | none => { dane := p.dane, monto := p.monto, attrs := List.replicate m naVal }

/-- Model of the territorial merge in mostrar_ingreso: both DANE keys are zero
padded strings of width five, the reference is deduplicated on the key keeping
the first occurrence, the join is a left join, and missing geography attributes
are filled with the sentinel.  The parameter m is the number of selected
geography attribute columns. -/
def mostrar_ingreso_geo_merge (m : Nat) (prim : List PrimRow) (geo : List GeoRow) :
    List MergedRow :=
  prim.map (mergeOne m (dedupByKey (fun g => ingresoKey g.dane) geo))

/-- Join key of load_data in poblacion_st: the code as a plain string, unpadded. -/
def pobKey (v : Val) : PyStr := pyStrOfVal v

/-- Model of the merge in load_data of poblacion_st: both DANE keys are converted
to plain strings, the join is an inner join, and no sentinel fill is applied. -/
def load_data_merge (prim : List PrimRow) (geo : List GeoRow) : List MergedRowPob :=
  prim.flatMap (fun p =>
    (geo.filter (fun g => decide (pobKey g.dane = pobKey p.dane))).map
      (fun g => { dane := p.dane, monto := p.monto, attrs := g.attrs }))

/-- Concrete componentes rows with two ordinary groups, for the checks. -/
def compRowsW : List CompRow := [⟨pyOfString "A", 100, 80⟩, ⟨pyOfString "B", 50, 60⟩]

/-- Concrete componentes row with a zero budget, for the zero safety check. -/
def compRowsZ : List CompRow := [⟨pyOfString "A", 0, 5⟩]

/-- Concrete kpi row with a zero budget, for the zero safety check. -/
def kpiRowsZ : List KpiRow := [⟨pyOfString "ENE", 0, 7⟩]

/-- Concrete poblacion row with zero budget and zero country population. -/
def pobRowsZ : List PobRow :=
  [⟨pyOfString "R1", pyOfString "ENERO", pyOfString "S", 0, 3, 0⟩]

/-- Concrete keyed rows mixing a sentinel key and an ordinary key. -/
def mixRowsW : List (PyStr × ℚ × ℚ) := [(naStr, 1, 2), (pyOfString "A", 3, 4)]

/-- Concrete kpi rows with the months MAR, ENE and DIC, for the ordering checks. -/
def kpiRowsMeses : List KpiRow :=
  [⟨pyOfString "MAR", 1, 1⟩, ⟨pyOfString "ENE", 1, 1⟩, ⟨pyOfString "DIC", 1, 1⟩]

/-- Concrete poblacion rows with two recognized months and one unrecognized
month token, for the ordering checks. -/
def pobRowsMeses : List PobRow :=
  [⟨pyOfString "R1", pyOfString "MARZO", pyOfString "S", 1, 1, 1⟩,
   ⟨pyOfString "R1", pyOfString "ENERO", pyOfString "S", 1, 1, 1⟩,
   ⟨pyOfString "R1", pyOfString "XX", pyOfString "S", 1, 1, 1⟩]

end VpoTableros

namespace VpoTableros

/-! ### Lemmas about single codepoints -/

theorem upNat_upNat (n : Nat) : upNat (upNat n) = upNat n := by
  unfold upNat
  split
  · rename_i h
    rw [if_neg]
    omega
  · rfl

theorem isWS_upNat (n : Nat) : isWS (upNat n) = isWS n := by
  unfold upNat
  split
  · rename_i h
    have h1 : isWS (n - 32) = false := by simp [isWS]; omega
    have h2 : isWS n = false := by simp [isWS]; omega
    rw [h1, h2]
  · rfl

theorem replSpaceNat_ne_32 (n : Nat) : replSpaceNat n ≠ 32 := by
  unfold replSpaceNat
  split <;> omega

theorem replSpaceNat_of_ne (n : Nat) (h : n ≠ 32) : replSpaceNat n = n := by
  unfold replSpaceNat
  rw [if_neg h]

theorem upNat_replSpaceNat_fix (n : Nat) (h : upNat n = n) :
    upNat (replSpaceNat n) = replSpaceNat n := by
  unfold replSpaceNat
  split
  · decide
  · exact h

theorem isWS_replSpaceNat (n : Nat) (h : isWS n = false) :
    isWS (replSpaceNat n) = false := by
  unfold replSpaceNat
  split
  · rename_i h32
    subst h32
    simp [isWS] at h
  · exact h

/-! ### Lemmas about dropWhile and the strip model -/

theorem mem_of_mem_dropWhile {α} (p : α → Bool) (l : List α) (a : α)
    (h : a ∈ l.dropWhile p) : a ∈ l := by
  induction l with
  | nil => simp [List.dropWhile] at h
  | cons x xs ih =>
    rw [List.dropWhile_cons] at h
    by_cases hx : p x = true
    · rw [if_pos hx] at h
      exact List.mem_cons_of_mem x (ih h)
    · rw [if_neg hx] at h
      exact h

theorem head?_dropWhile_false {α} (p : α → Bool) (l : List α) (a : α)
    (h : (l.dropWhile p).head? = some a) : p a = false := by
  induction l with
  | nil => simp [List.dropWhile] at h
  | cons x xs ih =>
    rw [List.dropWhile_cons] at h
    by_cases hx : p x = true
    · rw [if_pos hx] at h
      exact ih h
    · rw [if_neg hx] at h
      simp at h
      subst h
      simpa using hx

theorem dropWhile_eq_self_of_head {α} (p : α → Bool) (l : List α)
    (h : ∀ a, l.head? = some a → p a = false) : l.dropWhile p = l := by
  cases l with
  | nil => rfl
  | cons x xs =>
    rw [List.dropWhile_cons, if_neg]
    simp [h x rfl]

theorem dropWhile_append_last {α} (p : α → Bool) (l : List α) (a : α) :
    (l ++ [a]).dropWhile p = [] ∨ ∃ t, (l ++ [a]).dropWhile p = t ++ [a] := by
  induction l with
  | nil =>
    by_cases hp : p a = true
    · left
      simp [List.dropWhile, hp]
    · right
      refine ⟨[], ?_⟩
      simp at hp
      simp [List.dropWhile, hp]
  | cons x xs ih =>
    rw [List.cons_append, List.dropWhile_cons]
    by_cases hx : p x = true
    · rw [if_pos hx]
      exact ih
    · rw [if_neg hx]
      right
      exact ⟨x :: xs, rfl⟩

theorem mem_pyLstrip (s : PyStr) (a : Nat) (h : a ∈ pyLstrip s) : a ∈ s :=
  mem_of_mem_dropWhile isWS s a h

theorem mem_pyRstrip (s : PyStr) (a : Nat) (h : a ∈ pyRstrip s) : a ∈ s := by
  unfold pyRstrip at h
  rw [List.mem_reverse] at h
  have := mem_of_mem_dropWhile isWS s.reverse a h
  rwa [List.mem_reverse] at this

theorem mem_pyStrip (s : PyStr) (a : Nat) (h : a ∈ pyStrip s) : a ∈ s :=
  mem_pyLstrip s a (mem_pyRstrip (pyLstrip s) a h)

theorem head?_pyLstrip_false (s : PyStr) (a : Nat) (h : (pyLstrip s).head? = some a) :
    isWS a = false :=
  head?_dropWhile_false isWS s a h

theorem head?_pyRstrip (s : PyStr) :
    (pyRstrip s).head? = none ∨ (pyRstrip s).head? = s.head? := by
  cases s with
  | nil => left; rfl
  | cons x xs =>
    unfold pyRstrip
    rw [List.reverse_cons]
    rcases dropWhile_append_last isWS xs.reverse x with h | ⟨t, ht⟩
    · left
      rw [h]
      rfl
    · right
      rw [ht, List.reverse_append]
      rfl

theorem revhead?_pyRstrip_false (s : PyStr) (a : Nat)
    (h : (pyRstrip s).reverse.head? = some a) : isWS a = false := by
  unfold pyRstrip at h
  rw [List.reverse_reverse] at h
  exact head?_dropWhile_false isWS s.reverse a h

theorem pyRstrip_eq_self (s : PyStr)
    (h : ∀ a, s.reverse.head? = some a → isWS a = false) : pyRstrip s = s := by
  unfold pyRstrip
  rw [dropWhile_eq_self_of_head isWS s.reverse h, List.reverse_reverse]

theorem pyStrip_eq_self (s : PyStr)
    (h1 : ∀ a, s.head? = some a → isWS a = false)
    (h2 : ∀ a, s.reverse.head? = some a → isWS a = false) : pyStrip s = s := by
  unfold pyStrip
  rw [show pyLstrip s = s from dropWhile_eq_self_of_head isWS s h1]
  exact pyRstrip_eq_self s h2

theorem pyStrip_idem (s : PyStr) : pyStrip (pyStrip s) = pyStrip s := by
  apply pyStrip_eq_self
  · intro a ha
    rcases head?_pyRstrip (pyLstrip s) with h | h
    · rw [pyStrip] at ha
      rw [h] at ha
      cases ha
    · rw [pyStrip] at ha
      rw [h] at ha
      exact head?_pyLstrip_false s a ha
  · intro a ha
    exact revhead?_pyRstrip_false (pyLstrip s) a ha

/-! ### Lemmas about maps over codepoint strings -/

theorem map_fix {α} (f : α → α) (l : List α) (h : ∀ a ∈ l, f a = a) : l.map f = l := by
  induction l with
  | nil => rfl
  | cons x xs ih =>
    rw [List.map_cons, h x (List.mem_cons_self x xs), ih]
    intro a ha
    exact h a (List.mem_cons_of_mem x ha)

theorem pyUpper_fix (s : PyStr) (h : ∀ a ∈ s, upNat a = a) : pyUpper s = s :=
  map_fix upNat s h

theorem mem_pyUpper_up (s : PyStr) (a : Nat) (h : a ∈ pyUpper s) : upNat a = a := by
  unfold pyUpper at h
  rw [List.mem_map] at h
  obtain ⟨b, _, rfl⟩ := h
  exact upNat_upNat b

theorem pyUpper_strip_upper (u : PyStr) :
    pyUpper (pyStrip (pyUpper u)) = pyStrip (pyUpper u) := by
  apply pyUpper_fix
  intro a ha
  exact mem_pyUpper_up u a (mem_pyStrip (pyUpper u) a ha)

/-- Idempotence of the composed normalization used by aplicar_filtro_select. -/
theorem filtroNormStr_idem (u : PyStr) :
    pyStrip (pyUpper (pyStrip (pyUpper u))) = pyStrip (pyUpper u) := by
  rw [pyUpper_strip_upper, pyStrip_idem]

theorem filtroNorm_idem (v : Val) : filtroNorm (Val.s (filtroNorm v)) = filtroNorm v := by
  unfold filtroNorm pyStrOfVal
  exact filtroNormStr_idem (pyStrOfVal v)

/-! ### Idempotence of the column name normalization -/

theorem head?_map_comp {α β} (f : α → β) (l : List α) :
    (l.map f).head? = l.head?.map f := by
  cases l <;> rfl

theorem normName_strip (s : PyStr) : pyStrip (normName s) = normName s := by
  unfold normName
  apply pyStrip_eq_self
  · intro a ha
    rw [pyReplaceSpace, pyUpper, List.map_map, head?_map_comp] at ha
    cases hh : (pyStrip s).head? with
    | none => rw [hh] at ha; cases ha
    | some c =>
      rw [hh, Option.map_some'] at ha
      injection ha with ha
      subst ha
      have hc : isWS c = false := by
        rcases head?_pyRstrip (pyLstrip s) with h | h
        · rw [pyStrip] at hh; rw [h] at hh; cases hh
        · rw [pyStrip] at hh; rw [h] at hh
          exact head?_pyLstrip_false s c hh
      exact isWS_replSpaceNat _ (by rw [isWS_upNat]; exact hc)
  · intro a ha
    rw [pyReplaceSpace, pyUpper, List.map_map, ← List.map_reverse, head?_map_comp] at ha
    cases hh : (pyStrip s).reverse.head? with
    | none => rw [hh] at ha; cases ha
    | some c =>
      rw [hh, Option.map_some'] at ha
      injection ha with ha
      subst ha
      have hc : isWS c = false := revhead?_pyRstrip_false (pyLstrip s) c hh
      exact isWS_replSpaceNat _ (by rw [isWS_upNat]; exact hc)

theorem mem_normName (s : PyStr) (a : Nat) (h : a ∈ normName s) :
    ∃ b, a = replSpaceNat (upNat b) := by
  unfold normName pyReplaceSpace at h
  rw [List.mem_map] at h
  obtain ⟨c, hc, rfl⟩ := h
  unfold pyUpper at hc
  rw [List.mem_map] at hc
  obtain ⟨b, _, rfl⟩ := hc
  exact ⟨b, rfl⟩

theorem normName_upper (s : PyStr) : pyUpper (normName s) = normName s := by
  apply pyUpper_fix
  intro a ha
  obtain ⟨b, rfl⟩ := mem_normName s a ha
  exact upNat_replSpaceNat_fix _ (upNat_upNat b)

theorem normName_repl (s : PyStr) : pyReplaceSpace (normName s) = normName s := by
  apply map_fix
  intro a ha
  obtain ⟨b, rfl⟩ := mem_normName s a ha
  exact replSpaceNat_of_ne _ (replSpaceNat_ne_32 _)

theorem normName_idem (s : PyStr) : normName (normName s) = normName s := by
  conv_lhs => rw [normName, normName_strip, normName_upper, normName_repl]

/-! ### Lemmas about the sorting and deduplication models -/

theorem insertByLe_perm {α : Type} (le : α → α → Bool) (x : α) (l : List α) :
    (insertByLe le x l).Perm (x :: l) := by
  induction l with
  | nil => exact List.Perm.refl _
  | cons y ys ih =>
    rw [insertByLe]
    split
    · exact List.Perm.refl _
    · exact (List.Perm.cons y ih).trans (List.Perm.swap x y ys)

theorem sortByLe_perm {α : Type} (le : α → α → Bool) (l : List α) :
    (sortByLe le l).Perm l := by
  induction l with
  | nil => exact List.Perm.refl _
  | cons x xs ih =>
    exact (insertByLe_perm le x (sortByLe le xs)).trans (List.Perm.cons x ih)

theorem mem_sortByLe {α : Type} (le : α → α → Bool) (l : List α) (a : α) :
    a ∈ sortByLe le l ↔ a ∈ l :=
  (sortByLe_perm le l).mem_iff

theorem mem_dedupKeys (l : List PyStr) (k : PyStr) : k ∈ dedupKeys l ↔ k ∈ l := by
  induction l with
  | nil => simp [dedupKeys]
  | cons x xs ih =>
    rw [dedupKeys]
    constructor
    · intro h
      rcases List.mem_cons.mp h with h | h
      · exact h ▸ List.mem_cons_self x xs
      · exact List.mem_cons_of_mem x (ih.mp (List.mem_of_mem_filter h))
    · intro h
      rcases List.mem_cons.mp h with h | h
      · exact h ▸ List.mem_cons_self x _
      · by_cases hk : k = x
        · exact hk ▸ List.mem_cons_self x _
        · exact List.mem_cons_of_mem x
            (List.mem_filter.mpr ⟨ih.mpr h, by simpa using hk⟩)

theorem nodup_dedupKeys (l : List PyStr) : (dedupKeys l).Nodup := by
  induction l with
  | nil => exact List.nodup_nil
  | cons x xs ih =>
    rw [dedupKeys]
    refine List.Nodup.cons ?_ (ih.filter _)
    intro hx
    have := List.mem_filter.mp hx
    simp at this

theorem insertByLe_head {α : Type} (le : α → α → Bool) (x : α) (l : List α) :
    insertByLe le x l = x :: l ∨
      ∃ y ys, l = y :: ys ∧ insertByLe le x l = y :: insertByLe le x ys := by
  cases l with
  | nil => left; rfl
  | cons y ys =>
    rw [insertByLe]
    split
    · left; rfl
    · right; exact ⟨y, ys, rfl, rfl⟩

theorem map_congr_mem {α β : Type} (f g : α → β) (l : List α)
    (h : ∀ a ∈ l, f a = g a) : l.map f = l.map g := by
  induction l with
  | nil => rfl
  | cons x xs ih =>
    rw [List.map_cons, List.map_cons, h x (List.mem_cons_self x xs),
      ih (fun a ha => h a (List.mem_cons_of_mem x ha))]

theorem pairwiseLe_cons {α : Type} (le : α → α → Bool) (a : α) (l : List α) :
    pairwiseLe le (a :: l) = true ↔
      (∀ b, l.head? = some b → le a b = true) ∧ pairwiseLe le l = true := by
  cases l with
  | nil => simp [pairwiseLe]
  | cons b bs =>
    rw [pairwiseLe]
    simp only [Bool.and_eq_true]
    constructor
    · intro h
      exact ⟨fun c hc => by cases hc; exact h.1, h.2⟩
    · intro h
      exact ⟨h.1 b rfl, h.2⟩

theorem head?_insertByLe {α : Type} (le : α → α → Bool) (x : α) (l : List α) :
    (insertByLe le x l).head? = some x ∨ (insertByLe le x l).head? = l.head? := by
  cases l with
  | nil => left; rfl
  | cons y ys =>
    rw [insertByLe]
    split
    · left; rfl
    · right; rfl

theorem pairwiseLe_insertByLe {α : Type} (le : α → α → Bool)
    (htot : ∀ a b, le a b = true ∨ le b a = true) (x : α) (l : List α)
    (h : pairwiseLe le l = true) : pairwiseLe le (insertByLe le x l) = true := by
  induction l with
  | nil => rfl
  | cons y ys ih =>
    rw [insertByLe]
    split
    · rename_i hxy
      exact (pairwiseLe_cons le x (y :: ys)).mpr ⟨fun b hb => by cases hb; exact hxy, h⟩
    · rename_i hxy
      have hyx : le y x = true := by
        rcases htot x y with h1 | h1
        · exact absurd h1 hxy
        · exact h1
      obtain ⟨hhead, htail⟩ := (pairwiseLe_cons le y ys).mp h
      refine (pairwiseLe_cons le y (insertByLe le x ys)).mpr ⟨?_, ih htail⟩
      intro b hb
      rcases head?_insertByLe le x ys with h2 | h2
      · rw [h2] at hb
        cases hb
        exact hyx
      · rw [h2] at hb
        exact hhead b hb

theorem pairwiseLe_sortByLe {α : Type} (le : α → α → Bool)
    (htot : ∀ a b, le a b = true ∨ le b a = true) (l : List α) :
    pairwiseLe le (sortByLe le l) = true := by
  induction l with
  | nil => rfl
  | cons x xs ih => exact pairwiseLe_insertByLe le htot x (sortByLe le xs) ih

theorem lexLeN_total (a b : List Nat) : lexLeN a b = true ∨ lexLeN b a = true := by
  induction a generalizing b with
  | nil => left; rfl
  | cons x xs ih =>
    cases b with
    | nil => right; rfl
    | cons y ys =>
      rw [lexLeN, lexLeN]
      by_cases hxy : x < y
      · left; rw [if_pos hxy]
      · by_cases hyx : y < x
        · right; rw [if_pos hyx]
        · rcases ih ys with h | h
          · left; rw [if_neg hxy, if_neg hyx]; exact h
          · right; rw [if_neg hyx, if_neg hxy]; exact h

theorem optNatLe_total (a b : Option Nat) : optNatLe a b = true ∨ optNatLe b a = true := by
  cases a with
  | none =>
    cases b with
    | none => left; rfl
    | some y => right; rfl
  | some x =>
    cases b with
    | none => left; rfl
    | some y =>
      by_cases h : x ≤ y
      · left
        simpa [optNatLe] using h
      · right
        simp only [optNatLe, decide_eq_true_eq]
        omega

theorem pairwiseLe_map {α β : Type} (le : β → β → Bool) (f : α → β) (l : List α) :
    pairwiseLe le (l.map f) = pairwiseLe (fun a b => le (f a) (f b)) l := by
  induction l with
  | nil => rfl
  | cons x xs ih =>
    cases xs with
    | nil => rfl
    | cons y ys =>
      rw [List.map_cons, List.map_cons]
      rw [pairwiseLe, pairwiseLe, ← List.map_cons, ih]

theorem map_fst_filter_map {α β : Type} (h : α → β) (q : β → Bool) (l : List α) :
    ((l.map (fun g => (g, h g))).filter (fun p => q p.2)).map Prod.fst
      = l.filter (fun g => q (h g)) := by
  induction l with
  | nil => rfl
  | cons x xs ih =>
    by_cases hq : q (h x) = true
    · simp [List.filter_cons, hq, ih]
    · simp [List.filter_cons, hq, ih]

/-! ### Lemmas about sums over grouped rows -/

theorem sumOf_nil {α : Type} (f : α → ℚ) : sumOf f [] = 0 := rfl

theorem sumOf_cons {α : Type} (f : α → ℚ) (x : α) (l : List α) :
    sumOf f (x :: l) = f x + sumOf f l := by
  unfold sumOf
  rw [List.map_cons, List.sum_cons]

theorem sumOf_map {α β : Type} (f : β → ℚ) (g : α → β) (l : List α) :
    sumOf f (l.map g) = sumOf (fun a => f (g a)) l := by
  unfold sumOf
  rw [List.map_map]
  rfl

theorem sum_map_zero {α : Type} (l : List α) : (l.map (fun _ => (0 : ℚ))).sum = 0 := by
  induction l with
  | nil => rfl
  | cons x xs ih => rw [List.map_cons, List.sum_cons, ih, add_zero]

theorem sum_map_add {α : Type} (f g : α → ℚ) (l : List α) :
    (l.map (fun a => f a + g a)).sum = (l.map f).sum + (l.map g).sum := by
  induction l with
  | nil => simp
  | cons x xs ih =>
    rw [List.map_cons, List.sum_cons, ih, List.map_cons, List.sum_cons,
      List.map_cons, List.sum_cons]
    ring

theorem sum_map_ite_zero (ks : List PyStr) (a : PyStr) (c : ℚ) (ha : a ∉ ks) :
    (ks.map (fun k => if a = k then c else 0)).sum = 0 := by
  induction ks with
  | nil => rfl
  | cons k ks ih =>
    have hak : a ≠ k := fun h => ha (by rw [h]; exact List.mem_cons_self k ks)
    rw [List.map_cons, List.sum_cons, if_neg hak,
      ih (fun h => ha (List.mem_cons_of_mem k h)), add_zero]

theorem sum_map_ite_single (ks : List PyStr) (a : PyStr) (c : ℚ) (hnd : ks.Nodup)
    (ha : a ∈ ks) : (ks.map (fun k => if a = k then c else 0)).sum = c := by
  induction ks with
  | nil => cases ha
  | cons k ks ih =>
    rw [List.map_cons, List.sum_cons]
    by_cases hak : a = k
    · rw [if_pos hak, sum_map_ite_zero ks a c (hak ▸ (List.nodup_cons.mp hnd).1), add_zero]
    · rw [if_neg hak, ih (List.nodup_cons.mp hnd).2
        ((List.mem_cons.mp ha).resolve_left hak), zero_add]

theorem sum_groups {α : Type} (key : α → PyStr) (f : α → ℚ) (ks : List PyStr)
    (rows : List α) (hnd : ks.Nodup) (hcov : ∀ r ∈ rows, key r ∈ ks) :
    (ks.map (fun k => sumOf f (rows.filter (fun r => decide (key r = k))))).sum
      = sumOf f rows := by
  induction rows with
  | nil =>
    rw [sumOf_nil, map_congr_mem
      (fun k => sumOf f (List.filter (fun r => decide (key r = k)) []))
      (fun _ => (0 : ℚ)) ks (fun k _ => rfl)]
    exact sum_map_zero ks
  | cons r rs ih =>
    have hstep : ∀ k,
        sumOf f ((r :: rs).filter (fun x => decide (key x = k)))
          = (if key r = k then f r else 0)
            + sumOf f (rs.filter (fun x => decide (key x = k))) := by
      intro k
      rw [List.filter_cons]
      by_cases hk : key r = k
      · rw [if_pos (by simpa using hk), sumOf_cons, if_pos hk]
      · rw [if_neg (by simpa using hk), if_neg hk, zero_add]
    rw [map_congr_mem _ _ ks (fun k _ => hstep k), sum_map_add, sumOf_cons]
    rw [ih (fun x hx => hcov x (List.mem_cons_of_mem r hx))]
    rw [sum_map_ite_single ks (key r) (f r) hnd (hcov r (List.mem_cons_self r rs))]

theorem filter_filter_decide {α : Type} (p q : α → Prop) [DecidablePred p] [DecidablePred q]
    (l : List α) (h : ∀ a, p a → q a) :
    (l.filter (fun a => decide (q a))).filter (fun a => decide (p a))
      = l.filter (fun a => decide (p a)) := by
  induction l with
  | nil => rfl
  | cons x xs ih =>
    by_cases hq : q x
    · rw [List.filter_cons, if_pos (by simpa using hq), List.filter_cons,
        List.filter_cons, ih]
    · have hp : ¬ p x := fun hp => hq (h x hp)
      rw [List.filter_cons, if_neg (by simpa using hq), List.filter_cons,
        if_neg (by simpa using hp), ih]

theorem filter_eq_self_of_all {α : Type} (p : α → Bool) (l : List α)
    (h : ∀ a ∈ l, p a = true) : l.filter p = l := by
  induction l with
  | nil => rfl
  | cons x xs ih =>
    rw [List.filter_cons, if_pos (h x (List.mem_cons_self x xs)),
      ih (fun a ha => h a (List.mem_cons_of_mem x ha))]

theorem filter_of_map {α β : Type} (f : α → β) (p : β → Bool) (l : List α) :
    (l.map f).filter p = (l.filter (fun a => p (f a))).map f := by
  induction l with
  | nil => rfl
  | cons x xs ih =>
    rw [List.map_cons, List.filter_cons, List.filter_cons]
    by_cases h : p (f x) = true
    · rw [if_pos h, if_pos h, List.map_cons, ih]
    · rw [if_neg h, if_neg h, ih]

/-! ### Unfolding lemmas for the filter applicator -/

theorem normalize_columns_cols (cols : List PyStr) (rows : List (List Val)) :
    normalize_columns ⟨cols, rows⟩ =
      ⟨(if pctEjCol ∈ cols.map normName
          then (cols.map normName).map (fun c => if c = pctEjCol then porcEjCol else c)
          else cols.map normName), rows⟩ := rfl

theorem aplicar_filtro_select_eq (df : DF) (col : PyStr) (valor : Val)
    (hcol : col ∈ df.cols) (hv : valor ≠ Val.s todosStr) :
    aplicar_filtro_select df col valor =
      ({ cols := df.cols, rows := df.rows.map (normRow df.cols col) },
       { cols := df.cols,
         rows := (df.rows.map (normRow df.cols col)).filter
           (fun row => decide (cellAt df.cols row col = some (Val.s (filtroNorm valor)))) }) := by
  unfold aplicar_filtro_select
  rw [if_neg]
  intro h
  rcases h with h | h
  · exact h hcol
  · exact hv h

theorem normRow_idem (cols : List PyStr) (col : PyStr) (row : List Val) :
    normRow cols col (normRow cols col row) = normRow cols col row := by
  unfold normRow
  induction cols generalizing row with
  | nil => rfl
  | cons c cs ih =>
    cases row with
    | nil => rfl
    | cons v vs =>
      rw [List.zip_cons_cons, List.map_cons, List.zip_cons_cons, List.map_cons, ih]
      congr 1
      by_cases hc : c = col
      · simp only [if_pos hc]
        rw [filtroNorm_idem]
      · simp only [if_neg hc]

/-! ### Claim theorems -/

/-- C7: normalize_columns is idempotent; applying it twice yields exactly the
same column names and the same data as applying it once. -/
theorem C7_normalize_columns_idem (df : DF) :
    normalize_columns (normalize_columns df) = normalize_columns df := by
  have hporc : normName porcEjCol = porcEjCol := by decide
  have hne : porcEjCol ≠ pctEjCol := by decide
  obtain ⟨cols, rows⟩ := df
  by_cases hmem : pctEjCol ∈ cols.map normName
  · have h1 : normalize_columns ⟨cols, rows⟩ =
        ⟨(cols.map normName).map (fun c => if c = pctEjCol then porcEjCol else c), rows⟩ := by
      rw [normalize_columns_cols, if_pos hmem]
    rw [h1, normalize_columns_cols]
    have hfix : ∀ c ∈ (cols.map normName).map (fun c => if c = pctEjCol then porcEjCol else c),
        normName c = c := by
      intro c hc
      rw [List.mem_map] at hc
      obtain ⟨d, hd, rfl⟩ := hc
      rw [List.mem_map] at hd
      obtain ⟨e, _, rfl⟩ := hd
      by_cases hdp : normName e = pctEjCol
      · rw [if_pos hdp]
        exact hporc
      · rw [if_neg hdp]
        exact normName_idem e
    have hnot : pctEjCol ∉
        (cols.map normName).map (fun c => if c = pctEjCol then porcEjCol else c) := by
      intro hc
      rw [List.mem_map] at hc
      obtain ⟨d, _, hdeq⟩ := hc
      by_cases hdp : d = pctEjCol
      · rw [if_pos hdp] at hdeq
        exact hne hdeq
      · rw [if_neg hdp] at hdeq
        exact hdp hdeq
    rw [map_fix normName _ hfix, if_neg hnot]
  · have h1 : normalize_columns ⟨cols, rows⟩ = ⟨cols.map normName, rows⟩ := by
      rw [normalize_columns_cols, if_neg hmem]
    rw [h1, normalize_columns_cols]
    have hfix : ∀ c ∈ cols.map normName, normName c = c := by
      intro c hc
      rw [List.mem_map] at hc
      obtain ⟨e, _, rfl⟩ := hc
      exact normName_idem e
    rw [map_fix normName _ hfix, if_neg hmem]

/-- C8: aplicar_filtro_select with the sentinel selection, or with a column
that is absent from the dataset, returns the dataset unchanged. -/
theorem C8_aplicar_filtro_select_passthrough (df : DF) (col : PyStr) (valor : Val)
    (h : col ∉ df.cols ∨ valor = Val.s todosStr) :
    (aplicar_filtro_select df col valor).2 = df := by
  unfold aplicar_filtro_select
  rw [if_pos h]

theorem C8_aplicar_filtro_select_passthrough_witness :
    (aplicar_filtro_select ⟨[pyOfString "MES"], [[Val.s (pyOfString "ENE")]]⟩
        (pyOfString "MES") (Val.s todosStr)).2
      = ⟨[pyOfString "MES"], [[Val.s (pyOfString "ENE")]]⟩ ∧
    (aplicar_filtro_select ⟨[pyOfString "MES"], [[Val.s (pyOfString "ENE")]]⟩
        (pyOfString "REGIMEN") (Val.s (pyOfString "SUBSIDIADO"))).2
      = ⟨[pyOfString "MES"], [[Val.s (pyOfString "ENE")]]⟩ :=
  ⟨C8_aplicar_filtro_select_passthrough _ _ _ (Or.inr rfl),
   C8_aplicar_filtro_select_passthrough _ _ _ (Or.inl (by decide))⟩

/-- C9: applying aplicar_filtro_select twice in a row with the same column and
the same non sentinel value yields the same result as applying it once. -/
theorem C9_aplicar_filtro_select_idem (df : DF) (col : PyStr) (valor : Val)
    (hv : valor ≠ Val.s todosStr) :
    (aplicar_filtro_select (aplicar_filtro_select df col valor).2 col valor).2
      = (aplicar_filtro_select df col valor).2 := by
  by_cases hcol : col ∈ df.cols
  · set R := (df.rows.map (normRow df.cols col)).filter
        (fun row => decide (cellAt df.cols row col = some (Val.s (filtroNorm valor))))
      with hRdef
    have h2 : (aplicar_filtro_select df col valor).2 = DF.mk df.cols R := by
      rw [aplicar_filtro_select_eq df col valor hcol hv]
    rw [h2]
    have h3 : (aplicar_filtro_select (DF.mk df.cols R) col valor).2
        = DF.mk df.cols ((R.map (normRow df.cols col)).filter
            (fun row => decide (cellAt df.cols row col
              = some (Val.s (filtroNorm valor))))) := by
      rw [aplicar_filtro_select_eq (DF.mk df.cols R) col valor hcol hv]
    rw [h3]
    have hmapfix : R.map (normRow df.cols col) = R := by
      apply map_fix
      intro row hrow
      rw [hRdef] at hrow
      obtain ⟨row0, _, rfl⟩ := List.mem_map.mp (List.mem_of_mem_filter hrow)
      exact normRow_idem df.cols col row0
    rw [hmapfix]
    have hfilters := filter_eq_self_of_all
      (fun row => decide (cellAt df.cols row col = some (Val.s (filtroNorm valor)))) R
      (fun row hrow => by
        rw [hRdef] at hrow
        exact @List.of_mem_filter _
          (fun row => decide (cellAt df.cols row col = some (Val.s (filtroNorm valor))))
          row _ hrow)
    rw [hfilters]
  · have h1 : (aplicar_filtro_select df col valor).2 = df := by
      unfold aplicar_filtro_select
      rw [if_pos (Or.inl hcol)]
    rw [h1]
    exact h1

theorem C9_aplicar_filtro_select_idem_witness :
    (aplicar_filtro_select
        (aplicar_filtro_select
          ⟨[pyOfString "MES"], [[Val.s (pyOfString "ene")], [Val.s (pyOfString "FEB")]]⟩
          (pyOfString "MES") (Val.s (pyOfString "ENE"))).2
        (pyOfString "MES") (Val.s (pyOfString "ENE"))).2
      = (aplicar_filtro_select
          ⟨[pyOfString "MES"], [[Val.s (pyOfString "ene")], [Val.s (pyOfString "FEB")]]⟩
          (pyOfString "MES") (Val.s (pyOfString "ENE"))).2 :=
  C9_aplicar_filtro_select_idem _ _ _ (by decide)

/-- C5 counterexample: aplicar_filtro_select mutates the dataframe it is passed.
On a frame whose MES column holds the lowercase string ene, filtering on the
value ENE leaves the caller with an uppercased cell, so the post state differs
from the input. -/
theorem C5_aplicar_filtro_select_mutation_counterexample :
    (aplicar_filtro_select ⟨[pyOfString "MES"], [[Val.s (pyOfString "ene")]]⟩
        (pyOfString "MES") (Val.s (pyOfString "ENE"))).1
      ≠ ⟨[pyOfString "MES"], [[Val.s (pyOfString "ene")]]⟩ := by decide

/-- C5 amended: aplicar_filtro_select leaves the caller frame unmodified exactly
when the column is absent or the sentinel is selected; otherwise it mutates the
caller frame, coercing every cell of the selected column to its trimmed
uppercase string form while leaving the other columns and the row count
unchanged. -/
theorem C5_aplicar_filtro_select_mutation (df : DF) (col : PyStr) (valor : Val) :
    ((col ∉ df.cols ∨ valor = Val.s todosStr) →
        (aplicar_filtro_select df col valor).1 = df) ∧
      (col ∈ df.cols → valor ≠ Val.s todosStr →
        (aplicar_filtro_select df col valor).1
          = { cols := df.cols, rows := df.rows.map (normRow df.cols col) }) := by
  constructor
  · intro h
    unfold aplicar_filtro_select
    rw [if_pos h]
  · intro hc hv
    rw [aplicar_filtro_select_eq df col valor hc hv]

theorem C5_aplicar_filtro_select_mutation_witness :
    (aplicar_filtro_select ⟨[pyOfString "MES"], [[Val.s (pyOfString "ene")]]⟩
        (pyOfString "MES") (Val.s todosStr)).1
      = ⟨[pyOfString "MES"], [[Val.s (pyOfString "ene")]]⟩ ∧
    (aplicar_filtro_select ⟨[pyOfString "MES"], [[Val.s (pyOfString "ene")]]⟩
        (pyOfString "MES") (Val.s (pyOfString "ENE"))).1
      = ⟨[pyOfString "MES"], [[Val.s (pyOfString "ENE")]]⟩ := by
  constructor
  · exact (C5_aplicar_filtro_select_mutation _ _ _).1 (Or.inr rfl)
  · rw [(C5_aplicar_filtro_select_mutation
      ⟨[pyOfString "MES"], [[Val.s (pyOfString "ene")]]⟩ (pyOfString "MES")
      (Val.s (pyOfString "ENE"))).2 (by decide) (by decide)]
    decide

/-! ### Unfolding and membership lemmas for the aggregation models -/

theorem comp_guard_false (df : List CompRow) (h : ∃ r ∈ df, r.concepto ≠ naStr) :
    (df.isEmpty || df.all (fun r => decide (r.concepto = naStr))) = false := by
  obtain ⟨r, hr, hrne⟩ := h
  have h1 : df.isEmpty = false := by
    cases df with
    | nil => cases hr
    | cons a l => rfl
  have h2 : df.all (fun r => decide (r.concepto = naStr)) = false := by
    rw [Bool.eq_false_iff]
    intro hall
    rw [List.all_eq_true] at hall
    have := hall r hr
    rw [decide_eq_true_eq] at this
    exact hrne this
  rw [h1, h2]
  rfl

theorem kpi_guard_false (df : List KpiRow) (h : ∃ r ∈ df, r.key ≠ naStr) :
    (df.isEmpty || df.all (fun r => decide (r.key = naStr))) = false := by
  obtain ⟨r, hr, hrne⟩ := h
  have h1 : df.isEmpty = false := by
    cases df with
    | nil => cases hr
    | cons a l => rfl
  have h2 : df.all (fun r => decide (r.key = naStr)) = false := by
    rw [Bool.eq_false_iff]
    intro hall
    rw [List.all_eq_true] at hall
    have := hall r hr
    rw [decide_eq_true_eq] at this
    exact hrne this
  rw [h1, h2]
  rfl

theorem dedupKeys_ne_nil (l : List PyStr) (hl : l ≠ []) : dedupKeys l ≠ [] := by
  cases l with
  | nil => exact absurd rfl hl
  | cons x xs =>
    rw [dedupKeys]
    exact List.cons_ne_nil x _

theorem sortByLe_ne_nil {α : Type} (le : α → α → Bool) (l : List α) (hl : l ≠ []) :
    sortByLe le l ≠ [] := by
  intro h
  have hp := (sortByLe_perm le l).length_eq
  rw [h] at hp
  exact hl (List.eq_nil_of_length_eq_zero hp.symm)

theorem create_componente_table_eq (df : List CompRow) (h : ∃ r ∈ df, r.concepto ≠ naStr) :
    create_componente_table df
      = some (compGroups df ++ [compTotalRow (compGroups df)],
              compGroups df ++ [compTotalRow (compGroups df)]) := by
  unfold create_componente_table
  rw [comp_guard_false df h]
  rfl

theorem create_kpi_table_eq (b : Bool) (df : List KpiRow) (h : ∃ r ∈ df, r.key ≠ naStr) :
    create_kpi_table b df
      = some ((if b then
                 kpiMonthDisplay (kpiGroups (df.filter (fun r => decide (r.key ≠ naStr))))
               else kpiGroups (df.filter (fun r => decide (r.key ≠ naStr)))),
              kpiGroups (df.filter (fun r => decide (r.key ≠ naStr)))) := by
  obtain ⟨r, hr, hrne⟩ := h
  have hne : df.filter (fun r => decide (r.key ≠ naStr)) ≠ [] := by
    intro hf
    have hmem : r ∈ df.filter (fun r => decide (r.key ≠ naStr)) :=
      List.mem_filter.mpr ⟨hr, by simpa using hrne⟩
    rw [hf] at hmem
    cases hmem
  have hgne : (kpiGroups (df.filter (fun r => decide (r.key ≠ naStr)))).isEmpty = false := by
    unfold kpiGroups
    rw [List.isEmpty_eq_false_iff_exists_mem]
    have hks : sortByLe lexLeN
        (dedupKeys ((df.filter (fun r => decide (r.key ≠ naStr))).map (fun r => r.key))) ≠ [] := by
      apply sortByLe_ne_nil
      apply dedupKeys_ne_nil
      intro hm
      exact hne (List.map_eq_nil_iff.mp hm)
    cases hks2 : sortByLe lexLeN
        (dedupKeys ((df.filter (fun r => decide (r.key ≠ naStr))).map (fun r => r.key))) with
    | nil => exact absurd hks2 hks
    | cons k ks =>
      refine ⟨kpiGroupRow (df.filter (fun r => decide (r.key ≠ naStr))) k, ?_⟩
      exact List.mem_map_of_mem _ (List.mem_cons_self k ks)
  unfold create_kpi_table
  rw [kpi_guard_false df ⟨r, hr, hrne⟩, hgne]
  rfl

theorem mem_compGroups (df : List CompRow) (g : CompOut) (hg : g ∈ compGroups df) :
    ∃ k, g = compGroupRow df k := by
  unfold compGroups at hg
  rw [List.mem_map] at hg
  obtain ⟨k, _, rfl⟩ := hg
  exact ⟨k, rfl⟩

theorem mem_kpiGroups (dfF : List KpiRow) (g : KpiOut) (hg : g ∈ kpiGroups dfF) :
    ∃ k ∈ dfF.map (fun r => r.key), g = kpiGroupRow dfF k := by
  unfold kpiGroups at hg
  rw [List.mem_map] at hg
  obtain ⟨k, hk, rfl⟩ := hg
  rw [mem_sortByLe, mem_dedupKeys] at hk
  exact ⟨k, hk, rfl⟩

theorem mem_pobSummaryBy (key : PobRow → PyStr) (df : List PobRow) (g : PobOut)
    (hg : g ∈ pobSummaryBy key df) : ∃ k, g = pobGroupRow key df k := by
  unfold pobSummaryBy at hg
  rw [List.mem_map] at hg
  obtain ⟨k, _, rfl⟩ := hg
  exact ⟨k, rfl⟩

/-! ### Field lemmas and zero safety of the derived ratios -/

theorem replaceInfNan0_pyDiv_zero (e : ℚ) : replaceInfNan0 (pyDiv e 0) * 100 = 0 := by
  unfold pyDiv
  rw [if_pos rfl]
  split
  · exact zero_mul 100
  · split
    · exact zero_mul 100
    · exact zero_mul 100

theorem replaceInfNan0_pfMul100_pyDiv_zero (b : ℚ) :
    replaceInfNan0 (pfMul100 (pyDiv b 0)) = 0 := by
  unfold pyDiv
  rw [if_pos rfl]
  split
  · rfl
  · split
    · rfl
    · rfl

theorem compGroupRow_presupuesto (df : List CompRow) (k : PyStr) :
    (compGroupRow df k).presupuesto
      = sumOf (fun r => r.presupuesto) (df.filter (fun r => decide (r.concepto = k))) := rfl

theorem compGroupRow_pct (df : List CompRow) (k : PyStr) :
    (compGroupRow df k).pct_ejecucion
      = replaceInfNan0 (pyDiv (compGroupRow df k).ejecutado (compGroupRow df k).presupuesto)
          * 100 := rfl

theorem compTotalRow_pct (gs : List CompOut) :
    (compTotalRow gs).pct_ejecucion
      = (if (compTotalRow gs).presupuesto ≠ 0 then
           (compTotalRow gs).ejecutado / (compTotalRow gs).presupuesto * 100
         else 0) := rfl

theorem kpiGroupRow_pct (df : List KpiRow) (k : PyStr) :
    (kpiGroupRow df k).pct_ejecucion
      = replaceInfNan0 (pyDiv (kpiGroupRow df k).ejecutado (kpiGroupRow df k).presupuesto)
          * 100 := rfl

theorem pobGroupRow_pct_ejecucion (key : PobRow → PyStr) (df : List PobRow) (k : PyStr) :
    (pobGroupRow key df k).pct_ejecucion
      = (if (pobGroupRow key df k).presupuesto ≠ 0 then
           (pobGroupRow key df k).poblacion_bdua / (pobGroupRow key df k).presupuesto * 100
         else 0) := rfl

theorem pobGroupRow_pct_participacion (key : PobRow → PyStr) (df : List PobRow) (k : PyStr) :
    (pobGroupRow key df k).pct_participacion_pais
      = replaceInfNan0 (pfMul100 (pyDiv (pobGroupRow key df k).poblacion_bdua
          (pobGroupRow key df k).poblacion_pais)) := rfl

theorem pobGroupRow_zero_safe (key : PobRow → PyStr) (df : List PobRow) (k : PyStr) :
    ((pobGroupRow key df k).presupuesto = 0 → (pobGroupRow key df k).pct_ejecucion = 0) ∧
      ((pobGroupRow key df k).poblacion_pais = 0 →
        (pobGroupRow key df k).pct_participacion_pais = 0) := by
  constructor
  · intro hp
    rw [pobGroupRow_pct_ejecucion, hp]
    simp
  · intro hp
    rw [pobGroupRow_pct_participacion, hp]
    exact replaceInfNan0_pfMul100_pyDiv_zero _

/-- C2: in every ratio deriving aggregation (group and total rows of
create_componente_table, group rows of create_kpi_table, and the regional,
month and regimen summaries of poblacion_st), a group whose denominator sum is
zero gets ratio output exactly zero, regardless of the numerator sum. -/
theorem C2_zero_safety (dfC : List CompRow) (b : Bool) (dfK : List KpiRow)
    (dfP : List PobRow) :
    (∀ dd ee, create_componente_table dfC = some (dd, ee) →
        ∀ g ∈ ee, g.presupuesto = 0 → g.pct_ejecucion = 0) ∧
      (∀ dd ee, create_kpi_table b dfK = some (dd, ee) →
        ∀ g ∈ ee, g.presupuesto = 0 → g.pct_ejecucion = 0) ∧
      (∀ g ∈ df_regional_viz dfP,
        (g.presupuesto = 0 → g.pct_ejecucion = 0) ∧
          (g.poblacion_pais = 0 → g.pct_participacion_pais = 0)) ∧
      (∀ g ∈ df_mes_viz dfP,
        (g.presupuesto = 0 → g.pct_ejecucion = 0) ∧
          (g.poblacion_pais = 0 → g.pct_participacion_pais = 0)) ∧
      (∀ g ∈ df_regimen_table_viz dfP,
        (g.presupuesto = 0 → g.pct_ejecucion = 0) ∧
          (g.poblacion_pais = 0 → g.pct_participacion_pais = 0)) := by
  refine ⟨?_, ?_, ?_, ?_, ?_⟩
  · intro dd ee he g hg hp
    unfold create_componente_table at he
    split at he
    · exact Option.noConfusion he
    · rw [Option.some.injEq, Prod.mk.injEq] at he
      obtain ⟨_, hee⟩ := he
      subst hee
      rcases List.mem_append.mp hg with hgl | hgr
      · obtain ⟨k, rfl⟩ := mem_compGroups dfC g hgl
        rw [compGroupRow_pct, hp]
        exact replaceInfNan0_pyDiv_zero _
      · rw [List.mem_singleton] at hgr
        subst hgr
        rw [compTotalRow_pct, hp]
        simp
  · intro dd ee he g hg hp
    unfold create_kpi_table at he
    split at he
    · exact Option.noConfusion he
    · split at he
      · exact Option.noConfusion he
      · rw [Option.some.injEq, Prod.mk.injEq] at he
        obtain ⟨_, hee⟩ := he
        subst hee
        obtain ⟨k, _, rfl⟩ := mem_kpiGroups _ g hg
        rw [kpiGroupRow_pct, hp]
        exact replaceInfNan0_pyDiv_zero _
  · intro g hg
    unfold df_regional_viz at hg
    rw [mem_sortByLe] at hg
    obtain ⟨k, rfl⟩ := mem_pobSummaryBy _ dfP g hg
    exact pobGroupRow_zero_safe _ dfP k
  · intro g hg
    unfold df_mes_viz at hg
    rw [mem_sortByLe] at hg
    obtain ⟨k, rfl⟩ := mem_pobSummaryBy _ dfP g hg
    exact pobGroupRow_zero_safe _ dfP k
  · intro g hg
    unfold df_regimen_table_viz at hg
    rw [mem_sortByLe] at hg
    obtain ⟨k, rfl⟩ := mem_pobSummaryBy _ dfP g hg
    exact pobGroupRow_zero_safe _ dfP k

theorem C2_zero_safety_witness :
    (compGroupRow compRowsZ (pyOfString "A")).pct_ejecucion = 0 ∧
    (compTotalRow (compGroups compRowsZ)).pct_ejecucion = 0 ∧
    (kpiGroupRow (kpiRowsZ.filter (fun r => decide (r.key ≠ naStr)))
        (pyOfString "ENE")).pct_ejecucion = 0 ∧
    (pobGroupRow (fun r => r.regional) pobRowsZ (pyOfString "R1")).pct_ejecucion = 0 ∧
    (pobGroupRow (fun r => r.regional) pobRowsZ
        (pyOfString "R1")).pct_participacion_pais = 0 := by
  have h := C2_zero_safety compRowsZ false kpiRowsZ pobRowsZ
  have hacc : ∃ r ∈ compRowsZ, r.concepto ≠ naStr :=
    ⟨⟨pyOfString "A", 0, 5⟩, List.mem_cons_self _ _, by decide⟩
  have haccK : ∃ r ∈ kpiRowsZ, r.key ≠ naStr :=
    ⟨⟨pyOfString "ENE", 0, 7⟩, List.mem_cons_self _ _, by decide⟩
  have hgc : compGroups compRowsZ = [compGroupRow compRowsZ (pyOfString "A")] := rfl
  have hgk : kpiGroups (kpiRowsZ.filter (fun r => decide (r.key ≠ naStr)))
      = [kpiGroupRow (kpiRowsZ.filter (fun r => decide (r.key ≠ naStr))) (pyOfString "ENE")] := rfl
  have hgp : df_regional_viz pobRowsZ
      = [pobGroupRow (fun r => r.regional) pobRowsZ (pyOfString "R1")] := rfl
  refine ⟨?_, ?_, ?_, ?_, ?_⟩
  · refine h.1 _ _ (create_componente_table_eq compRowsZ hacc) _ ?_ ?_
    · rw [hgc]
      exact List.mem_append.mpr (Or.inl (List.mem_cons_self _ _))
    · show sumOf (fun r => r.presupuesto)
        (compRowsZ.filter (fun r => decide (r.concepto = pyOfString "A"))) = 0
      norm_num [compRowsZ, sumOf, List.filter]
  · refine h.1 _ _ (create_componente_table_eq compRowsZ hacc) _ ?_ ?_
    · exact List.mem_append.mpr (Or.inr (List.mem_cons_self _ _))
    · show sumOf (fun g => g.presupuesto) (compGroups compRowsZ) = 0
      rw [hgc]
      show sumOf (fun r => r.presupuesto)
        (compRowsZ.filter (fun r => decide (r.concepto = pyOfString "A"))) + 0 = 0
      norm_num [compRowsZ, sumOf, List.filter]
  · refine h.2.1 _ _ (create_kpi_table_eq false kpiRowsZ haccK) _ ?_ ?_
    · rw [hgk]
      exact List.mem_cons_self _ _
    · show sumOf (fun r => r.total_presupuesto)
        ((kpiRowsZ.filter (fun r => decide (r.key ≠ naStr))).filter
          (fun r => decide (r.key = pyOfString "ENE"))) = 0
      norm_num [kpiRowsZ, sumOf, List.filter]
  · refine (h.2.2.1 _ ?_).1 ?_
    · rw [hgp]
      exact List.mem_cons_self _ _
    · show sumOf (fun r => r.presupuesto)
        (pobRowsZ.filter (fun r => decide (r.regional = pyOfString "R1"))) = 0
      norm_num [pobRowsZ, sumOf, List.filter]
  · refine (h.2.2.1 _ ?_).2 ?_
    · rw [hgp]
      exact List.mem_cons_self _ _
    · show sumOf (fun r => r.poblacion_pais)
        (pobRowsZ.filter (fun r => decide (r.regional = pyOfString "R1"))) = 0
      norm_num [pobRowsZ, sumOf, List.filter]

/-- C1: for every accepted componentes dataset, create_componente_table appends
a TOTAL row whose budget and executed amounts are the sums of the per group
sums (equivalently of all input rows), whose difference is total executed minus
total budget, and whose executed percentage is recomputed from the overall sums
with the zero guard, not averaged from the group ratios. -/
theorem C1_componente_total_row (df : List CompRow) (h : ∃ r ∈ df, r.concepto ≠ naStr) :
    create_componente_table df
        = some (compGroups df ++ [compTotalRow (compGroups df)],
                compGroups df ++ [compTotalRow (compGroups df)]) ∧
      (compTotalRow (compGroups df)).concepto = totalStr ∧
      (compTotalRow (compGroups df)).presupuesto
        = ((compGroups df).map (fun g => g.presupuesto)).sum ∧
      (compTotalRow (compGroups df)).ejecutado
        = ((compGroups df).map (fun g => g.ejecutado)).sum ∧
      (compTotalRow (compGroups df)).diferencia
        = (compTotalRow (compGroups df)).ejecutado
            - (compTotalRow (compGroups df)).presupuesto ∧
      (compTotalRow (compGroups df)).pct_ejecucion
        = (if (compTotalRow (compGroups df)).presupuesto ≠ 0 then
             (compTotalRow (compGroups df)).ejecutado
               / (compTotalRow (compGroups df)).presupuesto * 100
           else 0) ∧
      (compTotalRow (compGroups df)).presupuesto = sumOf (fun r => r.presupuesto) df ∧
      (compTotalRow (compGroups df)).ejecutado = sumOf (fun r => r.ejecutado) df := by
  have hnd : (sortByLe lexLeN (dedupKeys (df.map (fun r => r.concepto)))).Nodup :=
    ((sortByLe_perm lexLeN _).nodup_iff).mpr (nodup_dedupKeys _)
  have hcov : ∀ r ∈ df,
      r.concepto ∈ sortByLe lexLeN (dedupKeys (df.map (fun r => r.concepto))) := by
    intro r hr
    rw [mem_sortByLe, mem_dedupKeys]
    exact List.mem_map_of_mem _ hr
  refine ⟨create_componente_table_eq df h, rfl, rfl, rfl, rfl, rfl, ?_, ?_⟩
  · show sumOf (fun g => g.presupuesto) (compGroups df) = sumOf (fun r => r.presupuesto) df
    unfold compGroups
    rw [sumOf_map]
    exact sum_groups (fun r => r.concepto) (fun r => r.presupuesto) _ df hnd hcov
  · show sumOf (fun g => g.ejecutado) (compGroups df) = sumOf (fun r => r.ejecutado) df
    unfold compGroups
    rw [sumOf_map]
    exact sum_groups (fun r => r.concepto) (fun r => r.ejecutado) _ df hnd hcov

theorem C1_componente_total_row_witness :
    (compTotalRow (compGroups compRowsW)).concepto = totalStr ∧
    (compTotalRow (compGroups compRowsW)).presupuesto
      = ((compGroups compRowsW).map (fun g => g.presupuesto)).sum ∧
    (compTotalRow (compGroups compRowsW)).presupuesto
      = sumOf (fun r => r.presupuesto) compRowsW ∧
    (compTotalRow (compGroups compRowsW)).ejecutado
      = sumOf (fun r => r.ejecutado) compRowsW ∧
    (compTotalRow (compGroups compRowsW)).presupuesto = 150 ∧
    (compTotalRow (compGroups compRowsW)).ejecutado = 140 := by
  have h := C1_componente_total_row compRowsW
    ⟨⟨pyOfString "A", 100, 80⟩, List.mem_cons_self _ _, by decide⟩
  refine ⟨h.2.1, h.2.2.1, h.2.2.2.2.2.2.1, h.2.2.2.2.2.2.2, ?_, ?_⟩
  · rw [h.2.2.2.2.2.2.1]
    norm_num [compRowsW, sumOf]
  · rw [h.2.2.2.2.2.2.2]
    norm_num [compRowsW, sumOf]

/-- C10: the two aggregation functions treat sentinel keyed rows differently.
When some but not all keys are the sentinel, create_kpi_table discards the
sentinel keyed rows before grouping, so no sentinel group row appears and the
exported sums cover exactly the rows with ordinary keys, whereas
create_componente_table keeps them, emitting an ordinary group row keyed by
the sentinel whose sums cover the sentinel keyed rows, and its TOTAL row sums
every input row including the sentinel keyed ones. -/
theorem C10_sentinel_handling (l : List (PyStr × ℚ × ℚ))
    (h1 : ∃ x ∈ l, x.1 = naStr) (h2 : ∃ x ∈ l, x.1 ≠ naStr) :
    (∃ d e, create_kpi_table false (toKpiRows l) = some (d, e) ∧
        (∀ g ∈ e, g.key ≠ naStr) ∧
        sumOf (fun g => g.presupuesto) e
          = sumOf (fun x => x.2.1) (l.filter (fun x => decide (x.1 ≠ naStr))) ∧
        sumOf (fun g => g.ejecutado) e
          = sumOf (fun x => x.2.2) (l.filter (fun x => decide (x.1 ≠ naStr)))) ∧
      (∃ d t, create_componente_table (toCompRows l)
          = some (d, compGroups (toCompRows l) ++ [t]) ∧
        (∃ g ∈ compGroups (toCompRows l), g.concepto = naStr ∧
          g.presupuesto = sumOf (fun x => x.2.1) (l.filter (fun x => decide (x.1 = naStr))) ∧
          g.ejecutado = sumOf (fun x => x.2.2) (l.filter (fun x => decide (x.1 = naStr)))) ∧
        t.presupuesto = sumOf (fun x => x.2.1) l ∧
        t.ejecutado = sumOf (fun x => x.2.2) l) := by
  obtain ⟨xa, hxa, hxana⟩ := h1
  obtain ⟨xb, hxb, hxbna⟩ := h2
  constructor
  · -- create_kpi_table part
    have haccK : ∃ r ∈ toKpiRows l, r.key ≠ naStr :=
      ⟨⟨xb.1, xb.2.1, xb.2.2⟩, List.mem_map_of_mem _ hxb, hxbna⟩
    have hdfF : (toKpiRows l).filter (fun r => decide (r.key ≠ naStr))
        = toKpiRows (l.filter (fun x => decide (x.1 ≠ naStr))) := by
      unfold toKpiRows
      rw [filter_of_map]
    refine ⟨_, _, create_kpi_table_eq false (toKpiRows l) haccK, ?_, ?_, ?_⟩
    · intro g hg
      obtain ⟨k, hk, rfl⟩ := mem_kpiGroups _ g hg
      rw [List.mem_map] at hk
      obtain ⟨r, hr, rfl⟩ := hk
      have := @List.of_mem_filter _ (fun r : KpiRow => decide (r.key ≠ naStr)) r _ hr
      rw [decide_eq_true_eq] at this
      exact this
    · have hnd : (sortByLe lexLeN (dedupKeys
          (((toKpiRows l).filter (fun r => decide (r.key ≠ naStr))).map
            (fun r => r.key)))).Nodup :=
        ((sortByLe_perm lexLeN _).nodup_iff).mpr (nodup_dedupKeys _)
      have hcov : ∀ r ∈ (toKpiRows l).filter (fun r => decide (r.key ≠ naStr)),
          r.key ∈ sortByLe lexLeN (dedupKeys
            (((toKpiRows l).filter (fun r => decide (r.key ≠ naStr))).map
              (fun r => r.key))) := by
        intro r hr
        rw [mem_sortByLe, mem_dedupKeys]
        exact List.mem_map_of_mem _ hr
      have h1 : sumOf (fun g => g.presupuesto)
          (kpiGroups ((toKpiRows l).filter (fun r => decide (r.key ≠ naStr))))
            = sumOf (fun r => r.total_presupuesto)
                ((toKpiRows l).filter (fun r => decide (r.key ≠ naStr))) := by
        unfold kpiGroups
        rw [sumOf_map]
        exact sum_groups (fun r : KpiRow => r.key) (fun r => r.total_presupuesto) _ _ hnd hcov
      rw [h1, hdfF]
      unfold toKpiRows
      rw [sumOf_map]
    · have hnd : (sortByLe lexLeN (dedupKeys
          (((toKpiRows l).filter (fun r => decide (r.key ≠ naStr))).map
            (fun r => r.key)))).Nodup :=
        ((sortByLe_perm lexLeN _).nodup_iff).mpr (nodup_dedupKeys _)
      have hcov : ∀ r ∈ (toKpiRows l).filter (fun r => decide (r.key ≠ naStr)),
          r.key ∈ sortByLe lexLeN (dedupKeys
            (((toKpiRows l).filter (fun r => decide (r.key ≠ naStr))).map
              (fun r => r.key))) := by
        intro r hr
        rw [mem_sortByLe, mem_dedupKeys]
        exact List.mem_map_of_mem _ hr
      have h1 : sumOf (fun g => g.ejecutado)
          (kpiGroups ((toKpiRows l).filter (fun r => decide (r.key ≠ naStr))))
            = sumOf (fun r => r.total_ejecutado)
                ((toKpiRows l).filter (fun r => decide (r.key ≠ naStr))) := by
        unfold kpiGroups
        rw [sumOf_map]
        exact sum_groups (fun r : KpiRow => r.key) (fun r => r.total_ejecutado) _ _ hnd hcov
      rw [h1, hdfF]
      unfold toKpiRows
      rw [sumOf_map]
  · -- create_componente_table part
    have haccC : ∃ r ∈ toCompRows l, r.concepto ≠ naStr :=
      ⟨⟨xb.1, xb.2.1, xb.2.2⟩, List.mem_map_of_mem _ hxb, hxbna⟩
    have hna : naStr ∈ sortByLe lexLeN (dedupKeys ((toCompRows l).map (fun r => r.concepto))) := by
      rw [mem_sortByLe, mem_dedupKeys]
      have hm : (⟨xa.1, xa.2.1, xa.2.2⟩ : CompRow) ∈ toCompRows l :=
        List.mem_map_of_mem _ hxa
      have := List.mem_map_of_mem (fun r : CompRow => r.concepto) hm
      rw [← hxana]
      exact this
    have hfilterC : (toCompRows l).filter (fun r => decide (r.concepto = naStr))
        = toCompRows (l.filter (fun x => decide (x.1 = naStr))) := by
      unfold toCompRows
      rw [filter_of_map]
    have hnd : (sortByLe lexLeN (dedupKeys ((toCompRows l).map (fun r => r.concepto)))).Nodup :=
      ((sortByLe_perm lexLeN _).nodup_iff).mpr (nodup_dedupKeys _)
    have hcov : ∀ r ∈ toCompRows l,
        r.concepto ∈ sortByLe lexLeN (dedupKeys ((toCompRows l).map (fun r => r.concepto))) := by
      intro r hr
      rw [mem_sortByLe, mem_dedupKeys]
      exact List.mem_map_of_mem _ hr
    refine ⟨_, _, create_componente_table_eq (toCompRows l) haccC, ?_, ?_, ?_⟩
    · refine ⟨compGroupRow (toCompRows l) naStr, ?_, rfl, ?_, ?_⟩
      · unfold compGroups
        exact List.mem_map_of_mem _ hna
      · show sumOf (fun r => r.presupuesto)
          ((toCompRows l).filter (fun r => decide (r.concepto = naStr)))
            = sumOf (fun x => x.2.1) (l.filter (fun x => decide (x.1 = naStr)))
        rw [hfilterC]
        unfold toCompRows
        rw [sumOf_map]
      · show sumOf (fun r => r.ejecutado)
          ((toCompRows l).filter (fun r => decide (r.concepto = naStr)))
            = sumOf (fun x => x.2.2) (l.filter (fun x => decide (x.1 = naStr)))
        rw [hfilterC]
        unfold toCompRows
        rw [sumOf_map]
    · show sumOf (fun g => g.presupuesto) (compGroups (toCompRows l))
        = sumOf (fun x => x.2.1) l
      unfold compGroups
      rw [sumOf_map]
      have hpart : sumOf (fun k => (compGroupRow (toCompRows l) k).presupuesto)
          (sortByLe lexLeN (dedupKeys ((toCompRows l).map (fun r => r.concepto))))
            = sumOf (fun r => r.presupuesto) (toCompRows l) :=
        sum_groups (fun r : CompRow => r.concepto) (fun r => r.presupuesto) _ _ hnd hcov
      rw [hpart]
      unfold toCompRows
      rw [sumOf_map]
    · show sumOf (fun g => g.ejecutado) (compGroups (toCompRows l))
        = sumOf (fun x => x.2.2) l
      unfold compGroups
      rw [sumOf_map]
      have hpart : sumOf (fun k => (compGroupRow (toCompRows l) k).ejecutado)
          (sortByLe lexLeN (dedupKeys ((toCompRows l).map (fun r => r.concepto))))
            = sumOf (fun r => r.ejecutado) (toCompRows l) :=
        sum_groups (fun r : CompRow => r.concepto) (fun r => r.ejecutado) _ _ hnd hcov
      rw [hpart]
      unfold toCompRows
      rw [sumOf_map]

theorem C10_sentinel_handling_witness :
    (∃ d e, create_kpi_table false (toKpiRows mixRowsW) = some (d, e) ∧
        (∀ g ∈ e, g.key ≠ naStr) ∧
        sumOf (fun g => g.presupuesto) e
          = sumOf (fun x => x.2.1) (mixRowsW.filter (fun x => decide (x.1 ≠ naStr))) ∧
        sumOf (fun g => g.ejecutado) e
          = sumOf (fun x => x.2.2) (mixRowsW.filter (fun x => decide (x.1 ≠ naStr)))) ∧
      (∃ d t, create_componente_table (toCompRows mixRowsW)
          = some (d, compGroups (toCompRows mixRowsW) ++ [t]) ∧
        (∃ g ∈ compGroups (toCompRows mixRowsW), g.concepto = naStr ∧
          g.presupuesto
            = sumOf (fun x => x.2.1) (mixRowsW.filter (fun x => decide (x.1 = naStr))) ∧
          g.ejecutado
            = sumOf (fun x => x.2.2) (mixRowsW.filter (fun x => decide (x.1 = naStr)))) ∧
        t.presupuesto = sumOf (fun x => x.2.1) mixRowsW ∧
        t.ejecutado = sumOf (fun x => x.2.2) mixRowsW) :=
  C10_sentinel_handling mixRowsW
    ⟨(naStr, 1, 2), List.mem_cons_self _ _, rfl⟩
    ⟨(pyOfString "A", 3, 4),
      List.mem_cons_of_mem _ (List.mem_cons_self _ _), by decide⟩

/-! ### Lemmas for the month ordering and the joins -/

theorem pairwiseLe_congr {α : Type} (le1 le2 : α → α → Bool) (l : List α)
    (h : ∀ a ∈ l, ∀ b ∈ l, le1 a b = le2 a b) : pairwiseLe le1 l = pairwiseLe le2 l := by
  induction l with
  | nil => rfl
  | cons a t ih =>
    cases t with
    | nil => rfl
    | cons b t2 =>
      rw [pairwiseLe, pairwiseLe,
        h a (List.mem_cons_self _ _) b (List.mem_cons_of_mem _ (List.mem_cons_self _ _)),
        ih (fun x hx y hy =>
          h x (List.mem_cons_of_mem _ hx) y (List.mem_cons_of_mem _ hy))]

theorem snd_of_mem_map_pair {α β : Type} (h : α → β) (l : List α) (p : α × β)
    (hp : p ∈ l.map (fun g => (g, h g))) : p.2 = h p.1 := by
  rw [List.mem_map] at hp
  obtain ⟨g, _, rfl⟩ := hp
  rfl

theorem mem_of_mem_dedupByKey {α : Type} (key : α → PyStr) (l : List α) (x : α)
    (h : x ∈ dedupByKey key l) : x ∈ l := by
  induction l with
  | nil => cases h
  | cons r rs ih =>
    rw [dedupByKey] at h
    rcases List.mem_cons.mp h with h | h
    · exact h ▸ List.mem_cons_self _ _
    · exact List.mem_cons_of_mem _ (ih (List.mem_of_mem_filter h))

theorem mergeOne_of_none (m : Nat) (geoU : List GeoRow) (p : PrimRow)
    (h : geoU.find? (fun g => decide (ingresoKey g.dane = ingresoKey p.dane)) = none) :
    mergeOne m geoU p = ⟨p.dane, p.monto, List.replicate m naVal⟩ := by
  unfold mergeOne
  rw [h]

theorem mergeOne_of_some (m : Nat) (geoU : List GeoRow) (p : PrimRow) (g : GeoRow)
    (h : geoU.find? (fun g => decide (ingresoKey g.dane = ingresoKey p.dane)) = some g) :
    mergeOne m geoU p = ⟨p.dane, p.monto, g.attrs.map (fun a => a.getD naVal)⟩ := by
  unfold mergeOne
  rw [h]

/-- C4 counterexample: on input months MAR, ENE, DIC the export table of
create_kpi_table keeps the lexically sorted groupby order DIC, ENE, MAR, not
the calendar order ENE, MAR, DIC that the claim asserts for both tables. -/
theorem C4_month_ordering_counterexample :
    create_kpi_table true kpiRowsMeses
        = some (kpiMonthDisplay (kpiGroups
                  (kpiRowsMeses.filter (fun r => decide (r.key ≠ naStr)))),
                kpiGroups (kpiRowsMeses.filter (fun r => decide (r.key ≠ naStr)))) ∧
      (kpiGroups (kpiRowsMeses.filter (fun r => decide (r.key ≠ naStr)))).map
          (fun g => g.key)
        = [pyOfString "DIC", pyOfString "ENE", pyOfString "MAR"] ∧
      (kpiMonthDisplay (kpiGroups
          (kpiRowsMeses.filter (fun r => decide (r.key ≠ naStr))))).map (fun g => g.key)
        = [pyOfString "ENE", pyOfString "MAR", pyOfString "DIC"] ∧
      ([pyOfString "DIC", pyOfString "ENE", pyOfString "MAR"] : List PyStr)
        ≠ [pyOfString "ENE", pyOfString "MAR", pyOfString "DIC"] :=
  ⟨rfl, by decide, by decide, by decide⟩

/-- C4 amended: in create_kpi_table only the display table is reordered by the
calendar month lookup, with unrecognized months dropped from it; the export
table keeps the sorted groupby key order and keeps every group.  In the month
summary of poblacion_st the rows are ordered by the calendar lookup with
unrecognized months placed last, and no row is dropped: every input month,
recognized or not, has a group row in the ordered output. -/
theorem C4_month_ordering_amended :
    (∀ (df : List KpiRow) (dd ee : List KpiOut),
        create_kpi_table true df = some (dd, ee) →
        pairwiseLe lexLeN (ee.map (fun g => g.key)) = true ∧
        (∀ g ∈ dd, (meses_orden (pyUpper g.key)).isSome = true) ∧
        pairwiseLe (fun a b => optNatLe (meses_orden (pyUpper a.key))
          (meses_orden (pyUpper b.key))) dd = true ∧
        dd.Perm (ee.filter (fun g => (meses_orden (pyUpper g.key)).isSome))) ∧
      (∀ dfP : List PobRow,
        pairwiseLe (fun a b => optNatLe (MONTH_ORDER a.key) (MONTH_ORDER b.key))
          (df_mes_viz dfP) = true ∧
        (df_mes_viz dfP).Perm (pobSummaryBy (fun r => r.mes) dfP) ∧
        (∀ r ∈ dfP, ∃ g ∈ df_mes_viz dfP, g.key = r.mes)) := by
  constructor
  · intro df dd ee he
    unfold create_kpi_table at he
    split at he
    · exact Option.noConfusion he
    · split at he
      · exact Option.noConfusion he
      · rw [if_pos rfl, Option.some.injEq, Prod.mk.injEq] at he
        obtain ⟨hdd, hee⟩ := he
        subst hdd
        subst hee
        refine ⟨?_, ?_, ?_, ?_⟩
        · have hkeys : (kpiGroups (df.filter (fun r => decide (r.key ≠ naStr)))).map
              (fun g => g.key)
                = sortByLe lexLeN (dedupKeys
                    ((df.filter (fun r => decide (r.key ≠ naStr))).map (fun r => r.key))) := by
            unfold kpiGroups
            rw [List.map_map]
            rw [map_congr_mem
              ((fun g : KpiOut => g.key)
                ∘ kpiGroupRow (df.filter (fun r => decide (r.key ≠ naStr))))
              id _ (fun k _ => rfl), List.map_id]
          rw [hkeys]
          exact pairwiseLe_sortByLe lexLeN lexLeN_total _
        · intro g hg
          unfold kpiMonthDisplay at hg
          rw [List.mem_map] at hg
          obtain ⟨p, hp, rfl⟩ := hg
          rw [mem_sortByLe] at hp
          have hp2 : p.2.isSome = true :=
            @List.of_mem_filter _ (fun q : KpiOut × Option Nat => q.2.isSome) p _ hp
          have hpm := List.mem_of_mem_filter hp
          have hps : p.2 = meses_orden (pyUpper p.1.key) :=
            snd_of_mem_map_pair (fun g => meses_orden (pyUpper g.key)) _ p hpm
          rw [hps] at hp2
          exact hp2
        · unfold kpiMonthDisplay
          set sp := sortByLe (fun a b : KpiOut × Option Nat => optNatLe a.2 b.2)
            (((kpiGroups (df.filter (fun r => decide (r.key ≠ naStr)))).map
              (fun g => (g, meses_orden (pyUpper g.key)))).filter
                (fun p => p.2.isSome)) with hspdef
          have hmems : ∀ p ∈ sp, p.2 = meses_orden (pyUpper p.1.key) := by
            intro p hp
            rw [hspdef, mem_sortByLe] at hp
            exact snd_of_mem_map_pair (fun g => meses_orden (pyUpper g.key)) _ p
              (List.mem_of_mem_filter hp)
          rw [pairwiseLe_map]
          have hcg := pairwiseLe_congr
            (fun a b : KpiOut × Option Nat =>
              optNatLe (meses_orden (pyUpper a.1.key)) (meses_orden (pyUpper b.1.key)))
            (fun a b : KpiOut × Option Nat => optNatLe a.2 b.2) sp
            (fun a ha b hb => by
              show optNatLe (meses_orden (pyUpper a.1.key)) (meses_orden (pyUpper b.1.key))
                = optNatLe a.2 b.2
              rw [hmems a ha, hmems b hb])
          have hs : pairwiseLe (fun a b : KpiOut × Option Nat => optNatLe a.2 b.2) sp
              = true := by
            rw [hspdef]
            exact pairwiseLe_sortByLe _
              (fun a b : KpiOut × Option Nat => optNatLe_total a.2 b.2) _
          show pairwiseLe (fun a b : KpiOut × Option Nat =>
              optNatLe (meses_orden (pyUpper a.1.key)) (meses_orden (pyUpper b.1.key))) sp = true
          rw [hcg]
          exact hs
        · unfold kpiMonthDisplay
          have hperm := (sortByLe_perm (fun a b : KpiOut × Option Nat => optNatLe a.2 b.2)
            (((kpiGroups (df.filter (fun r => decide (r.key ≠ naStr)))).map
              (fun g => (g, meses_orden (pyUpper g.key)))).filter
                (fun p => p.2.isSome))).map Prod.fst
          rw [map_fst_filter_map] at hperm
          exact hperm
  · intro dfP
    refine ⟨?_, ?_, ?_⟩
    · unfold df_mes_viz
      exact pairwiseLe_sortByLe _ (fun a b => optNatLe_total _ _) _
    · unfold df_mes_viz
      exact sortByLe_perm _ _
    · intro r hr
      refine ⟨pobGroupRow (fun r => r.mes) dfP r.mes, ?_, rfl⟩
      unfold df_mes_viz
      rw [mem_sortByLe]
      unfold pobSummaryBy
      apply List.mem_map_of_mem
      rw [mem_sortByLe, mem_dedupKeys]
      exact List.mem_map_of_mem _ hr

theorem C4_month_ordering_amended_witness :
    pairwiseLe lexLeN ((kpiGroups
        (kpiRowsMeses.filter (fun r => decide (r.key ≠ naStr)))).map (fun g => g.key))
      = true ∧
    (∀ g ∈ kpiMonthDisplay (kpiGroups
        (kpiRowsMeses.filter (fun r => decide (r.key ≠ naStr)))),
      (meses_orden (pyUpper g.key)).isSome = true) ∧
    (∃ g ∈ df_mes_viz pobRowsMeses, g.key = pyOfString "XX") := by
  have h := C4_month_ordering_amended
  have ha := h.1 kpiRowsMeses _ _ rfl
  refine ⟨ha.1, ha.2.1, ?_⟩
  exact (h.2 pobRowsMeses).2.2
    ⟨pyOfString "R1", pyOfString "XX", pyOfString "S", 1, 1, 1⟩
    (List.mem_cons_of_mem _ (List.mem_cons_of_mem _ (List.mem_cons_self _ _)))

/-- C3 counterexample: in load_data of poblacion_st the territorial join is an
inner join; a primary row whose code matches nothing in the reference is
dropped from the result instead of being kept with sentinel attributes. -/
theorem C3_join_default_counterexample :
    (∀ g ∈ ([⟨Val.s (pyOfString "11111"), [some naVal]⟩] : List GeoRow),
        pobKey g.dane ≠ pobKey (Val.n 99999)) ∧
      load_data_merge [⟨Val.n 99999, 1⟩] [⟨Val.s (pyOfString "11111"), [some naVal]⟩]
        = [] := by
  constructor
  · intro g hg
    rw [List.mem_singleton] at hg
    subst hg
    decide
  · rfl

/-- C3 amended: the ingreso page performs a left join, keeping every primary
row and filling the attribute columns of unmatched rows with the sentinel,
while load_data of poblacion_st performs an inner join, so every surviving row
has a matching reference code and unmatched primary rows are dropped. -/
theorem C3_join_default_amended :
    (∀ (m : Nat) (prim : List PrimRow) (geo : List GeoRow),
        (mostrar_ingreso_geo_merge m prim geo).length = prim.length ∧
        (∀ p ∈ prim, (∀ g ∈ geo, ingresoKey g.dane ≠ ingresoKey p.dane) →
          (⟨p.dane, p.monto, List.replicate m naVal⟩ : MergedRow)
            ∈ mostrar_ingreso_geo_merge m prim geo)) ∧
      (∀ (prim : List PrimRow) (geo : List GeoRow) (q : MergedRowPob),
        q ∈ load_data_merge prim geo → ∃ g ∈ geo, pobKey g.dane = pobKey q.dane) := by
  constructor
  · intro m prim geo
    constructor
    · unfold mostrar_ingreso_geo_merge
      rw [List.length_map]
    · intro p hp hnomatch
      have hnone : (dedupByKey (fun g => ingresoKey g.dane) geo).find?
          (fun g => decide (ingresoKey g.dane = ingresoKey p.dane)) = none := by
        rw [List.find?_eq_none]
        intro g hg
        rw [decide_eq_true_eq]
        exact hnomatch g (mem_of_mem_dedupByKey _ geo g hg)
      have heq := mergeOne_of_none m (dedupByKey (fun g => ingresoKey g.dane) geo) p hnone
      unfold mostrar_ingreso_geo_merge
      rw [← heq]
      exact List.mem_map_of_mem _ hp
  · intro prim geo q hq
    unfold load_data_merge at hq
    rw [List.mem_flatMap] at hq
    obtain ⟨p, _, hq2⟩ := hq
    rw [List.mem_map] at hq2
    obtain ⟨g, hg, rfl⟩ := hq2
    have hk : decide (pobKey g.dane = pobKey p.dane) = true :=
      @List.of_mem_filter _ (fun g => decide (pobKey g.dane = pobKey p.dane)) g _ hg
    rw [decide_eq_true_eq] at hk
    exact ⟨g, List.mem_of_mem_filter hg, hk⟩

theorem C3_join_default_amended_witness :
    (mostrar_ingreso_geo_merge 1 [⟨Val.n 99999, 1⟩]
        [⟨Val.s (pyOfString "11111"), [some naVal]⟩]).length = 1 ∧
    (⟨Val.n 99999, 1, List.replicate 1 naVal⟩ : MergedRow)
      ∈ mostrar_ingreso_geo_merge 1 [⟨Val.n 99999, 1⟩]
          [⟨Val.s (pyOfString "11111"), [some naVal]⟩] ∧
    (∃ g ∈ ([⟨Val.s (pyOfString "05001"), []⟩] : List GeoRow),
      pobKey g.dane
        = pobKey (Val.s (pyOfString "05001"))) := by
  have h := C3_join_default_amended
  have ha := (h.1 1 [⟨Val.n 99999, 1⟩] [⟨Val.s (pyOfString "11111"), [some naVal]⟩])
  refine ⟨ha.1, ?_, ?_⟩
  · refine ha.2 _ (List.mem_cons_self _ _) ?_
    intro g hg
    rw [List.mem_singleton] at hg
    subst hg
    decide
  · refine h.2 [⟨Val.s (pyOfString "05001"), 2⟩] [⟨Val.s (pyOfString "05001"), []⟩]
      ⟨Val.s (pyOfString "05001"), 2, []⟩ ?_
    show (⟨Val.s (pyOfString "05001"), 2, []⟩ : MergedRowPob)
      ∈ [(⟨Val.s (pyOfString "05001"), 2, []⟩ : MergedRowPob)]
    exact List.mem_cons_self _ _

/-- C6 counterexample: load_data of poblacion_st converts the join keys to
plain strings without zero padding, so a numeric code and its zero padded
string form, equal after padding to width five, do not match there and their
join produces no row. -/
theorem C6_zero_pad_counterexample :
    pyZfill 5 (pyStrOfVal (Val.n 5001)) = pyZfill 5 (pyStrOfVal (Val.s (pyOfString "05001"))) ∧
      pobKey (Val.n 5001) ≠ pobKey (Val.s (pyOfString "05001")) ∧
      load_data_merge [⟨Val.n 5001, 1⟩] [⟨Val.s (pyOfString "05001"), [some naVal]⟩]
        = [] :=
  ⟨by decide, by decide, rfl⟩

/-- C6 amended: the ingreso page coerces both join keys to zero padded strings
of width five before matching, so a primary row and a reference row join
exactly when their padded keys agree, and a numeric code matches its zero
padded string form; load_data of poblacion_st coerces both keys to plain
strings without padding, so rows join exactly when the unpadded strings agree,
and the same numeric and padded codes do not match there. -/
theorem C6_zero_pad_amended :
    (∀ (m : Nat) (p : PrimRow) (g : GeoRow),
        mostrar_ingreso_geo_merge m [p] [g]
          = (if ingresoKey g.dane = ingresoKey p.dane then
               [⟨p.dane, p.monto, g.attrs.map (fun a => a.getD naVal)⟩]
             else [⟨p.dane, p.monto, List.replicate m naVal⟩])) ∧
      (∀ (p : PrimRow) (g : GeoRow),
        load_data_merge [p] [g]
          = (if pobKey g.dane = pobKey p.dane then [⟨p.dane, p.monto, g.attrs⟩] else [])) ∧
      ingresoKey (Val.n 5001) = ingresoKey (Val.s (pyOfString "05001")) ∧
      pobKey (Val.n 5001) ≠ pobKey (Val.s (pyOfString "05001")) := by
  refine ⟨?_, ?_, by decide, by decide⟩
  · intro m p g
    have hded : dedupByKey (fun g : GeoRow => ingresoKey g.dane) [g] = [g] := rfl
    unfold mostrar_ingreso_geo_merge
    rw [hded]
    by_cases hk : ingresoKey g.dane = ingresoKey p.dane
    · have hfind : ([g] : List GeoRow).find?
          (fun g2 => decide (ingresoKey g2.dane = ingresoKey p.dane)) = some g :=
        List.find?_cons_of_pos _ (by simpa using hk)
      rw [List.map_cons, List.map_nil, mergeOne_of_some m [g] p g hfind, if_pos hk]
    · have hfind : ([g] : List GeoRow).find?
          (fun g2 => decide (ingresoKey g2.dane = ingresoKey p.dane)) = none := by
        rw [List.find?_eq_none]
        intro x hx
        rw [List.mem_singleton] at hx
        subst hx
        rw [decide_eq_true_eq]
        exact hk
      rw [List.map_cons, List.map_nil, mergeOne_of_none m [g] p hfind, if_neg hk]
  · intro p g
    unfold load_data_merge
    by_cases hk : pobKey g.dane = pobKey p.dane
    · rw [if_pos hk]
      show (List.filter (fun g => decide (pobKey g.dane = pobKey p.dane)) [g]).map _ ++ [] = _
      rw [List.filter_cons, if_pos (by simpa using hk)]
      rfl
    · rw [if_neg hk]
      show (List.filter (fun g => decide (pobKey g.dane = pobKey p.dane)) [g]).map _ ++ [] = _
      rw [List.filter_cons, if_neg (by simpa using hk)]
      rfl

end VpoTableros
